import Mathlib

/-!
Verification development for the Motorsport Manager practice-driver save fixer.

The definitions below are a shallow embedding of `SaveFixer/src/SaveFile.cpp`:
text buffers become `List Char`, byte offsets become `Nat`, `size_t` arithmetic
is modelled modulo `2 ^ 64`, and functions that throw `SaveFixerException`
return `Except SaveError`.  Loops that walk a buffer are written as
fuel-indexed recursions; each wrapper passes a fuel that is an upper bound on
the number of iterations the C++ loop can make (the loop index moves strictly
monotonically), so the fuel-exhaustion branch is unreachable on the inputs the
theorems talk about.
-/

set_option maxRecDepth 10000

/-- Error taxonomy of the save fixer, one constructor per distinct
`SaveFixerException` message family in `SaveFile.cpp`. -/
inductive SaveError where
  | invalidFormat
  | unsupportedVersion (observed : Int)
  | tooLarge
  | corruptPayload
  | malformedJson
  | playerTeamNotFound
  | invalidPositionValue
  | invalidDriverName
  | driverCountMismatch
  | internalError
deriving DecidableEq

instance exceptDecEq {ε α : Type} [DecidableEq ε] [DecidableEq α] :
    DecidableEq (Except ε α) := fun x y =>
  match x, y with
  | .ok a, .ok b =>
    if h : a = b then .isTrue (by rw [h]) else
      .isFalse (fun hc => by cases hc; exact h rfl)
  | .error a, .error b =>
    if h : a = b then .isTrue (by rw [h]) else
      .isFalse (fun hc => by cases hc; exact h rfl)
  | .ok _, .error _ => .isFalse (fun hc => Except.noConfusion hc)
  | .error _, .ok _ => .isFalse (fun hc => Except.noConfusion hc)

abbrev SRes (α : Type) := Except SaveError α

/-- Embedding of `SaveFile::DriverPosition`. -/
inductive DriverPosition where
  | reserve
  | car1
  | car2
deriving DecidableEq

/-- Embedding of `SaveFile::Driver`.  The constructor used by `maybe_get_driver` sets
`position` and `original_position` to the same parsed value. -/
structure Driver where
  name : List Char
  position : DriverPosition
  original_position : DriverPosition
  car_id_file_offset : Nat
deriving DecidableEq

/-- Toggling a driver seat through `DriverRef.position` mutates only the
`position` field of the stored record. -/
def set_position (d : Driver) (p : DriverPosition) : Driver :=
  { d with position := p }

/-- Embedding of `2 ^ 64`, the modulus of `size_t` arithmetic. -/
def szW : Nat := 18446744073709551616

/-- Embedding of `size_t` subtraction `a - b` (wrapping). -/
def sizeT_sub (a b : Nat) : Nat := (a % szW + (szW - b % szW)) % szW

/-- Embedding of `size_t` addition `a + b` (wrapping). -/
def sizeT_add (a b : Nat) : Nat := (a + b) % szW

def quoteChar : Char := Char.ofNat 34
def backslashChar : Char := Char.ofNat 92
def lbraceChar : Char := Char.ofNat 123
def rbraceChar : Char := Char.ofNat 125
def lbrackChar : Char := '['
def rbrackChar : Char := ']'
def commaChar : Char := ','
def colonChar : Char := ':'

/-- Reading `json_data[i]`.  The C++ code only indexes in bounds; the default
character (NUL) makes the model total. -/
def chAt (json_data : List Char) (i : Nat) : Char := json_data.getD i (Char.ofNat 0)

/-- Embedding of `string_view_between(s, a, b) = s.substr(a + 1, (b - a) - 1)`:
the characters strictly between offsets `a` and `b`. -/
def string_view_between (s : List Char) (a b : Nat) : List Char :=
  (s.drop (a + 1)).take (b - a - 1)

/-- Loop of `count_preceeding_backslashes`, scanning down from `i`. -/
def count_preceeding_backslashes_loop (json_data : List Char) (offset : Nat) :
    Nat → Nat
  | 0 => if chAt json_data 0 ≠ backslashChar then offset - 0 - 1 else offset
  | i + 1 =>
    if chAt json_data (i + 1) ≠ backslashChar then offset - (i + 1) - 1
    else count_preceeding_backslashes_loop json_data offset i

/-- Embedding of `count_preceeding_backslashes(json_data, offset)`: the length of the run of
consecutive backslashes immediately before `offset`. -/
def count_preceeding_backslashes (json_data : List Char) (offset : Nat) : Nat :=
  if offset = 0 then 0
  else count_preceeding_backslashes_loop json_data offset (offset - 1)

/-- Loop of `find_closing_quote`: forward scan with an `escaped` flag. -/
def find_closing_quote_loop (json_data : List Char) : Nat → Nat → Bool → SRes Nat
  | 0, _, _ => .error .malformedJson
  | fuel + 1, i, escaped =>
    if i < json_data.length then
      let c := chAt json_data i
      if c = backslashChar then
        find_closing_quote_loop json_data fuel (i + 1) (!escaped)
      else if c = quoteChar then
        if !escaped then .ok i
        else find_closing_quote_loop json_data fuel (i + 1) false
      else find_closing_quote_loop json_data fuel (i + 1) false
    else .error .malformedJson

/-- Embedding of `find_closing_quote(json_data, offset_of_opening_quote)`. -/
def find_closing_quote (json_data : List Char) (offset_of_opening_quote : Nat) :
    SRes Nat :=
  find_closing_quote_loop json_data
    (json_data.length + 1 - offset_of_opening_quote) (offset_of_opening_quote + 1)
    false

/-- Loop of `rfind_opening_quote`: backward scan counting backslash runs. -/
def rfind_opening_quote_loop (json_data : List Char) : Nat → Nat → SRes Nat
  | 0, _ => .error .malformedJson
  | fuel + 1, i =>
    if chAt json_data i = quoteChar then
      let escape_count := count_preceeding_backslashes json_data i
      if escape_count = 0 then .ok i
      else if escape_count % 2 = 1 then
        if i - escape_count = 0 then .error .malformedJson
        else rfind_opening_quote_loop json_data fuel (i - escape_count - 1)
      else .error .malformedJson
    else if i = 0 then .error .malformedJson
    else rfind_opening_quote_loop json_data fuel (i - 1)

/-- Embedding of `rfind_opening_quote(json_data, offset_of_closing_quote)`. -/
def rfind_opening_quote (json_data : List Char) (offset_of_closing_quote : Nat) :
    SRes Nat :=
  if offset_of_closing_quote = 0 then .error .malformedJson
  else
    rfind_opening_quote_loop json_data offset_of_closing_quote
      (offset_of_closing_quote - 1)

/-- Loop of `find_closing_brace`: forward bracket-stack walk; the head of
`closing_brace_stack` is the vector's `back()`. -/
def find_closing_brace_loop (json_data : List Char) :
    Nat → Nat → List Char → SRes Nat
  | 0, _, _ => .error .malformedJson
  | fuel + 1, i, closing_brace_stack =>
    if i < json_data.length then
      let c := chAt json_data i
      if c = quoteChar then
        match find_closing_quote json_data i with
        | .error e => .error e
        | .ok j => find_closing_brace_loop json_data fuel (j + 1) closing_brace_stack
      else if c = lbraceChar ∨ c = lbrackChar then
        find_closing_brace_loop json_data fuel (i + 1)
          ((if c = lbraceChar then rbraceChar else rbrackChar) :: closing_brace_stack)
      else if c = rbraceChar ∨ c = rbrackChar then
        match closing_brace_stack with
        | [] => .error .malformedJson
        | top :: rest =>
          if c = top then
            if rest.isEmpty then .ok i
            else find_closing_brace_loop json_data fuel (i + 1) rest
          else .error .malformedJson
      else find_closing_brace_loop json_data fuel (i + 1) closing_brace_stack
    else .error .malformedJson

/-- Embedding of `find_closing_brace(json_data, starting_offset, brace)`. -/
def find_closing_brace (json_data : List Char) (starting_offset : Nat)
    (brace : Char) : SRes Nat :=
  find_closing_brace_loop json_data (json_data.length + 1 - starting_offset)
    starting_offset [brace]

/-- Loop of `rfind_opening_brace`: backward bracket-stack walk.  The `i == 0`
test sits after the switch, exactly as in the source. -/
def rfind_opening_brace_loop (json_data : List Char) :
    Nat → Nat → List Char → SRes Nat
  | 0, _, _ => .error .malformedJson
  | fuel + 1, i, opening_brace_stack =>
    let c := chAt json_data i
    if c = quoteChar then
      match rfind_opening_quote json_data i with
      | .error e => .error e
      | .ok j =>
        if j = 0 then .error .malformedJson
        else rfind_opening_brace_loop json_data fuel (j - 1) opening_brace_stack
    else if c = rbraceChar ∨ c = rbrackChar then
      if i = 0 then .error .malformedJson
      else
        rfind_opening_brace_loop json_data fuel (i - 1)
          ((if c = rbraceChar then lbraceChar else lbrackChar) :: opening_brace_stack)
    else if c = lbraceChar ∨ c = lbrackChar then
      match opening_brace_stack with
      | [] => .error .malformedJson
      | top :: rest =>
        if c = top then
          if rest.isEmpty then .ok i
          else if i = 0 then .error .malformedJson
          else rfind_opening_brace_loop json_data fuel (i - 1) rest
        else .error .malformedJson
    else if i = 0 then .error .malformedJson
    else rfind_opening_brace_loop json_data fuel (i - 1) opening_brace_stack

/-- Embedding of `rfind_opening_brace(json_data, starting_offset, brace)`. -/
def rfind_opening_brace (json_data : List Char) (starting_offset : Nat)
    (brace : Char) : SRes Nat :=
  rfind_opening_brace_loop json_data (starting_offset + 1) starting_offset [brace]

/-- Embedding of `find_matching_brace(json_data, offset_of_brace)`.  The opening-brace case
of the C++ switch has no `break`: when `offset_of_brace + 1 < size` fails it
falls through into the closing-brace case, which is reproduced here. -/
def find_matching_brace (json_data : List Char) (offset_of_brace : Nat) : SRes Nat :=
  let c := chAt json_data offset_of_brace
  if c = lbraceChar ∨ c = lbrackChar then
    if offset_of_brace + 1 < json_data.length then
      find_closing_brace json_data (offset_of_brace + 1)
        (if c = lbraceChar then rbraceChar else rbrackChar)
    else if offset_of_brace ≠ 0 then
      rfind_opening_brace json_data (offset_of_brace - 1)
        (if c = rbraceChar then lbraceChar else lbrackChar)
    else .error .malformedJson
  else if c = rbraceChar ∨ c = rbrackChar then
    if offset_of_brace ≠ 0 then
      rfind_opening_brace json_data (offset_of_brace - 1)
        (if c = rbraceChar then lbraceChar else lbrackChar)
    else .error .malformedJson
  else .error .malformedJson

/-- Forward half of `for_sibling_key_values_in_object`: the default case of the
value-skipping switch, scanning for the next `,` or `}`. -/
def scan_forward_value_end (json_data : List Char) : Nat → Nat → SRes Nat
  | 0, _ => .error .malformedJson
  | fuel + 1, j =>
    if j < json_data.length then
      if chAt json_data j = commaChar ∨ chAt json_data j = rbraceChar then .ok (j - 1)
      else scan_forward_value_end json_data fuel (j + 1)
    else .error .malformedJson

/-- Backward half's default case: scan down for the `:` preceding the value. -/
def scan_back_value_start (json_data : List Char) : Nat → Nat → SRes Nat
  | 0, _ => .error .malformedJson
  | fuel + 1, j =>
    if j ≠ 0 then
      if chAt json_data (j - 1) = colonChar then .ok j
      else scan_back_value_start json_data fuel (j - 1)
    else .error .malformedJson

/-- The first (forward) loop of `for_sibling_key_values_in_object`.  The C++
callback's captured variables become the explicit state `st`; the returned
`Bool` is `true` when the loop exited by its condition (so the backward loop
still runs) and `false` when the callback stopped the walk. -/
def for_sibling_fwd {σ : Type} (json_data : List Char)
    (step : σ → List Char → Nat → SRes (σ × Bool)) :
    Nat → Nat → σ → SRes (σ × Bool)
  | 0, _, _ => .error .internalError
  | fuel + 1, i, st =>
    if i < json_data.length ∧ chAt json_data i = quoteChar then
      match find_closing_quote json_data i with
      | .error e => .error e
      | .ok key_end_quote_pos =>
        let key := string_view_between json_data i key_end_quote_pos
        if key_end_quote_pos + 2 ≥ json_data.length ∨
            chAt json_data (key_end_quote_pos + 1) ≠ colonChar then
          .error .malformedJson
        else
          let value_start_pos := key_end_quote_pos + 2
          match step st key value_start_pos with
          | .error e => .error e
          | .ok (st', cont) =>
            if !cont then .ok (st', false)
            else
              let vc := chAt json_data value_start_pos
              match
                (if vc = quoteChar then find_closing_quote json_data value_start_pos
                 else if vc = lbraceChar ∨ vc = lbrackChar then
                   find_matching_brace json_data value_start_pos
                 else
                   scan_forward_value_end json_data (json_data.length + 1)
                     (value_start_pos + 1)) with
              | .error e => .error e
              | .ok value_end_pos =>
                let i' := value_end_pos + 1
                let i'' :=
                  if i' < json_data.length ∧ chAt json_data i' = commaChar then i' + 1
                  else i'
                for_sibling_fwd json_data step fuel i'' st'
    else .ok (st, true)

/-- The second (backward) loop of `for_sibling_key_values_in_object`. -/
def for_sibling_bwd {σ : Type} (json_data : List Char)
    (step : σ → List Char → Nat → SRes (σ × Bool)) :
    Nat → Nat → σ → SRes σ
  | 0, _, _ => .error .internalError
  | fuel + 1, i, st =>
    if i ≠ 0 ∧ chAt json_data i ≠ lbraceChar then
      if chAt json_data i ≠ commaChar then .error .malformedJson
      else
        let value_end_pos := i - 1
        let vc := chAt json_data value_end_pos
        match
          (if vc = quoteChar then rfind_opening_quote json_data value_end_pos
           else if vc = rbraceChar ∨ vc = rbrackChar then
             find_matching_brace json_data value_end_pos
           else scan_back_value_start json_data (value_end_pos + 1) value_end_pos) with
        | .error e => .error e
        | .ok value_start_pos =>
          if value_start_pos < 3 ∨ chAt json_data (value_start_pos - 1) ≠ colonChar ∨
              chAt json_data (value_start_pos - 2) ≠ quoteChar then
            .error .malformedJson
          else
            let key_end_quote_pos := value_start_pos - 2
            match rfind_opening_quote json_data key_end_quote_pos with
            | .error e => .error e
            | .ok key_start_quote_pos =>
              if key_start_quote_pos = 0 then .error .malformedJson
              else
                let key := string_view_between json_data key_start_quote_pos key_end_quote_pos
                match step st key value_start_pos with
                | .error e => .error e
                | .ok (st', cont) =>
                  if !cont then .ok st'
                  else for_sibling_bwd json_data step fuel (key_start_quote_pos - 1) st'
    else .ok st

/-- Embedding of `for_sibling_key_values_in_object(json_data, start_offset, callback)`. -/
def for_sibling_key_values_in_object {σ : Type} (json_data : List Char)
    (start_offset : Nat) (st : σ)
    (step : σ → List Char → Nat → SRes (σ × Bool)) : SRes σ :=
  match for_sibling_fwd json_data step (json_data.length + 1) start_offset st with
  | .error e => .error e
  | .ok (st', false) => .ok st'
  | .ok (st', true) =>
    for_sibling_bwd json_data step (json_data.length + 1) (start_offset - 1) st'

/-- Embedding of `for_key_values_in_object(json_data, object_opening_brace_offset, callback)`. -/
def for_key_values_in_object {σ : Type} (json_data : List Char)
    (object_opening_brace_offset : Nat) (st : σ)
    (step : σ → List Char → Nat → SRes (σ × Bool)) : SRes σ :=
  let start_pos := object_opening_brace_offset + 1
  if start_pos < json_data.length then
    let c := chAt json_data start_pos
    if c = quoteChar then for_sibling_key_values_in_object json_data start_pos st step
    else if c = rbraceChar then .ok st
    else .error .malformedJson
  else .error .malformedJson

/-- Embedding of `lookup_value_in_object(json_data, object_opening_brace_offset, sought_key)`. -/
def lookup_value_in_object (json_data : List Char)
    (object_opening_brace_offset : Nat) (sought_key : List Char) : SRes (Option Nat) :=
  for_key_values_in_object json_data object_opening_brace_offset (none : Option Nat)
    (fun st key value_offset =>
      if key = sought_key then .ok (some value_offset, false) else .ok (st, true))

/-- Bounded substring search, modelling `std::u8string_view::find(pat, start)`. -/
def find_substring_loop (json_data pat : List Char) : Nat → Nat → Option Nat
  | 0, _ => none
  | fuel + 1, start =>
    if start + pat.length > json_data.length then none
    else if pat.isPrefixOf (json_data.drop start) then some start
    else find_substring_loop json_data pat fuel (start + 1)

def find_substring (json_data pat : List Char) (start : Nat) : Option Nat :=
  find_substring_loop json_data pat (json_data.length + 1) start

def player_team_obj_start : List Char := "\x22mPlayerTeam\x22:\x7b".toList

def dollar_id_key : List Char := "$id".toList

/-- Embedding of `get_player_team_id(json_data)`. -/
def get_player_team_id (json_data : List Char) : SRes (List Char) :=
  match find_substring json_data player_team_obj_start 0 with
  | some player_team_key_start =>
    let play_team_obj_opening_brace_pos :=
      player_team_key_start + player_team_obj_start.length - 1
    match lookup_value_in_object json_data play_team_obj_opening_brace_pos dollar_id_key with
    | .error e => .error e
    | .ok (some id_value_pos) =>
      if chAt json_data id_value_pos = quoteChar then
        match find_closing_quote json_data id_value_pos with
        | .error e => .error e
        | .ok value_closing_quote =>
          .ok (string_view_between json_data id_value_pos value_closing_quote)
      else .error .playerTeamNotFound
    | .ok none => .error .playerTeamNotFound
  | none => .error .playerTeamNotFound

/-- The search pattern of `for_each_employeer_team_ref`. -/
def employeer_team_ref_str (team_id : List Char) : List Char :=
  "\x22mEmployeerTeam\x22:\x7b\x22$ref\x22:\x22".toList ++ team_id ++ "\x22\x7d".toList

/-- The offsets visited by `for_each_employeer_team_ref`, in visit order. -/
def for_each_employeer_team_ref_loop (json_data pat : List Char) : Nat → Nat → List Nat
  | 0, _ => []
  | fuel + 1, start_pos =>
    match find_substring json_data pat start_pos with
    | none => []
    | some ref_pos =>
      ref_pos :: for_each_employeer_team_ref_loop json_data pat fuel (ref_pos + 1)

def for_each_employeer_team_ref (json_data team_id : List Char) : List Nat :=
  for_each_employeer_team_ref_loop json_data (employeer_team_ref_str team_id)
    (json_data.length + 1) 0

def contract_key : List Char := "\x22contract\x22:".toList

/-- Embedding of `find_employeer_team_ref_contract_offset`; `npos` becomes `none`. -/
def find_employeer_team_ref_contract_offset (json_data : List Char)
    (employeer_team_ref_offset : Nat) : SRes (Option Nat) :=
  if employeer_team_ref_offset ≠ 0 then
    match rfind_opening_brace json_data (employeer_team_ref_offset - 1) lbraceChar with
    | .error e => .error e
    | .ok object_start_pos =>
      if object_start_pos > contract_key.length ∧
          (json_data.drop (object_start_pos - contract_key.length)).take
            contract_key.length = contract_key then
        .ok (some (object_start_pos - contract_key.length))
      else .ok none
  else .ok none

/-- Embedding of `parse_driver_position(json_data, value_offset)`. -/
def parse_driver_position (json_data : List Char) (value_offset : Nat) :
    SRes DriverPosition :=
  if value_offset + 2 < json_data.length then
    if chAt json_data value_offset = '-' ∧ chAt json_data (value_offset + 1) = '1' ∧
        (chAt json_data (value_offset + 2) = commaChar ∨
          chAt json_data (value_offset + 2) = rbraceChar) then
      .ok .reserve
    else if chAt json_data value_offset = '0' ∧
        (chAt json_data (value_offset + 1) = commaChar ∨
          chAt json_data (value_offset + 1) = rbraceChar) then
      .ok .car1
    else if chAt json_data value_offset = '1' ∧
        (chAt json_data (value_offset + 1) = commaChar ∨
          chAt json_data (value_offset + 1) = rbraceChar) then
      .ok .car2
    else .error .invalidPositionValue
  else .error .malformedJson

/-- Embedding of `parse_driver_name_string(json_data, value_offset)`. -/
def parse_driver_name_string (json_data : List Char) (value_offset : Nat) :
    SRes (List Char) :=
  if chAt json_data value_offset = quoteChar then
    match find_closing_quote json_data value_offset with
    | .error e => .error e
    | .ok q => .ok (string_view_between json_data value_offset q)
  else .error .invalidDriverName

/-- State captured by the `maybe_get_driver` callback. -/
structure DriverScan where
  car_id_pos : Option Nat
  first_name : Option (List Char)
  last_name : Option (List Char)
deriving DecidableEq

def mCarID_key : List Char := "mCarID".toList

def mFirstName_key : List Char := "mFirstName".toList

def mLastName_key : List Char := "mLastName".toList

def driver_scan_continue (st : DriverScan) : Bool :=
  !(st.car_id_pos.isSome && st.first_name.isSome && st.last_name.isSome)

/-- The callback of `maybe_get_driver`. -/
def maybe_get_driver_step (json_data : List Char) (st : DriverScan)
    (key : List Char) (value_offset : Nat) : SRes (DriverScan × Bool) :=
  if key = mCarID_key then
    let st' := { st with car_id_pos := some value_offset }
    .ok (st', driver_scan_continue st')
  else if key = mFirstName_key then
    match parse_driver_name_string json_data value_offset with
    | .error e => .error e
    | .ok nm =>
      let st' := { st with first_name := some nm }
      .ok (st', driver_scan_continue st')
  else if key = mLastName_key then
    match parse_driver_name_string json_data value_offset with
    | .error e => .error e
    | .ok nm =>
      let st' := { st with last_name := some nm }
      .ok (st', driver_scan_continue st')
  else .ok (st, driver_scan_continue st)

/-- Embedding of `maybe_get_driver(json_data, contract_key_offset)`. -/
def maybe_get_driver (json_data : List Char) (contract_key_offset : Nat) :
    SRes (Option Driver) :=
  match for_sibling_key_values_in_object json_data contract_key_offset
      (⟨none, none, none⟩ : DriverScan) (maybe_get_driver_step json_data) with
  | .error e => .error e
  | .ok st =>
    match st.car_id_pos, st.first_name, st.last_name with
    | some car_id_pos, some first_name, some last_name =>
      match parse_driver_position json_data car_id_pos with
      | .error e => .error e
      | .ok pos => .ok (some ⟨first_name ++ [' '] ++ last_name, pos, pos, car_id_pos⟩)
    | _, _, _ => .ok none

/-- The `found_drivers` accumulation of `SaveFile::get_driver_data_from_json`,
one iteration per employer-team-reference offset. -/
def collect_drivers_loop (json_data : List Char) (found : List Driver) :
    List Nat → SRes (List Driver)
  | [] => .ok found
  | ref :: rest =>
    match find_employeer_team_ref_contract_offset json_data ref with
    | .error e => .error e
    | .ok none => collect_drivers_loop json_data found rest
    | .ok (some contract_key_offset) =>
      match maybe_get_driver json_data contract_key_offset with
      | .error e => .error e
      | .ok none => collect_drivers_loop json_data found rest
      | .ok (some d) => collect_drivers_loop json_data (found ++ [d]) rest

/-- Comparison used to model the `std::sort` on `car_id_file_offset`. -/
def driver_le (a b : Driver) : Prop :=
  a.car_id_file_offset ≤ b.car_id_file_offset

instance driver_le_dec : DecidableRel driver_le :=
  fun a b => Nat.decLe a.car_id_file_offset b.car_id_file_offset

instance driver_le_total : IsTotal Driver driver_le :=
  ⟨fun a b => Nat.le_total a.car_id_file_offset b.car_id_file_offset⟩

instance driver_le_trans : IsTrans Driver driver_le :=
  ⟨fun _ _ _ => Nat.le_trans⟩

/-- Embedding of `SaveFile::get_driver_data_from_json`, returning the three stored records
(`std::sort` by offset is modelled by an insertion sort). -/
def get_driver_data_from_json (json_data : List Char) : SRes (List Driver) :=
  match get_player_team_id json_data with
  | .error e => .error e
  | .ok player_team_id =>
    match collect_drivers_loop json_data []
        (for_each_employeer_team_ref json_data player_team_id) with
    | .error e => .error e
    | .ok found_drivers =>
      if found_drivers.length ≠ 3 then .error .driverCountMismatch
      else .ok (found_drivers.insertionSort driver_le)

/-- Embedding of `get_position_as_json_value(p)`. -/
def get_position_as_json_value : DriverPosition → List Char
  | .reserve => "-1".toList
  | .car1 => "0".toList
  | .car2 => "1".toList

/-- The `info_out_size` computation of `create_uncompressed_output_buffer`. -/
def info_out_size (original_save_info_size original_save_name_size
    new_save_name_size : Nat) : Nat :=
  sizeT_add (sizeT_sub original_save_info_size original_save_name_size)
    new_save_name_size

/-- The `data_out_size` computation of `create_uncompressed_output_buffer`:
`size -= |token(original_position)|; size += |token(position)|` per driver. -/
def data_out_size (original_save_data_size : Nat) (drivers : List Driver) : Nat :=
  drivers.foldl
    (fun size d =>
      sizeT_add (sizeT_sub size (get_position_as_json_value d.original_position).length)
        (get_position_as_json_value d.position).length)
    original_save_data_size

/-- One output span plus its remaining capacity (`std::span` shrunk by
`subspan` after each copy). -/
structure OutBuf where
  written : List Char
  remaining : Nat
deriving DecidableEq

/-- Embedding of `copy_to_buffer(s, b)`. -/
def copy_to_buffer (s : List Char) (b : OutBuf) : SRes OutBuf :=
  if s.length > b.remaining then .error .internalError
  else .ok ⟨b.written ++ s, b.remaining - s.length⟩

/-- Embedding of `s.substr(pos)` (callers keep `pos ≤ s.size()`). -/
def substr_from (s : List Char) (pos : Nat) : List Char := s.drop pos

/-- Embedding of `s.substr(pos, count)` with the standard clamping of `count`. -/
def substr_count (s : List Char) (pos count : Nat) : List Char :=
  (s.drop pos).take count

/-- The driver loop of `create_uncompressed_output`; the second component is
`not_copied_offset`.  The copied-span length `d.car_id_file_offset -
not_copied_offset` is `size_t` subtraction. -/
def write_drivers_loop (original_save_data : List Char) :
    List Driver → Nat → OutBuf → SRes (OutBuf × Nat)
  | [], not_copied_offset, b => .ok (b, not_copied_offset)
  | d :: rest, not_copied_offset, b =>
    if d.position ≠ d.original_position then
      match copy_to_buffer
          (substr_count original_save_data not_copied_offset
            (sizeT_sub d.car_id_file_offset not_copied_offset)) b with
      | .error e => .error e
      | .ok b1 =>
        match copy_to_buffer (get_position_as_json_value d.position) b1 with
        | .error e => .error e
        | .ok b2 =>
          write_drivers_loop original_save_data rest
            (d.car_id_file_offset +
              (get_position_as_json_value d.original_position).length) b2
    else write_drivers_loop original_save_data rest not_copied_offset b

/-- Embedding of `create_uncompressed_output`, returning the `(info, data)` text buffers. -/
def create_uncompressed_output (original_save_info original_save_data : List Char)
    (original_save_name_offset original_save_name_size : Nat)
    (new_save_name : List Char) (drivers : List Driver) :
    SRes (List Char × List Char) :=
  let info_sz := info_out_size original_save_info.length original_save_name_size
    new_save_name.length
  let data_sz := data_out_size original_save_data.length drivers
  match copy_to_buffer (substr_count original_save_info 0 original_save_name_offset)
      ⟨[], info_sz⟩ with
  | .error e => .error e
  | .ok ib1 =>
    match copy_to_buffer new_save_name ib1 with
    | .error e => .error e
    | .ok ib2 =>
      match copy_to_buffer
          (substr_from original_save_info
            (original_save_name_offset + original_save_name_size)) ib2 with
      | .error e => .error e
      | .ok ib3 =>
        match write_drivers_loop original_save_data drivers 0 ⟨[], data_sz⟩ with
        | .error e => .error e
        | .ok (db, not_copied_offset) =>
          match copy_to_buffer (substr_from original_save_data not_copied_offset) db with
          | .error e => .error e
          | .ok db2 =>
            if ib3.remaining ≠ 0 ∨ db2.remaining ≠ 0 then .error .internalError
            else .ok (ib3.written, db2.written)

/-- Embedding of `SaveFileHeader`; 32-bit signed fields in declaration order. -/
structure SaveFileHeader where
  magic : Int
  version : Int
  compressed_info_size : Int
  decompressed_info_size : Int
  compressed_data_size : Int
  decompressed_data_size : Int
deriving DecidableEq

def mm_save_file_magic : Int := 1932684653

def mm_save_file_supported_version : Int := 4

def max_decompressed_buffer_size : Nat := 4 * 1024 * 1024 * 1024

def save_file_header_size : Nat := 24

/-- A 4-byte little-endian signed integer read from the raw file bytes. -/
def read_i32_le (file_data : List Nat) (off : Nat) : Int :=
  let v := file_data.getD off 0 % 256 + 256 * (file_data.getD (off + 1) 0 % 256) +
    65536 * (file_data.getD (off + 2) 0 % 256) +
    16777216 * (file_data.getD (off + 3) 0 % 256)
  if v < 2147483648 then (v : Int) else (v : Int) - 4294967296

/-- Embedding of `read_save_file_header(file_data)`, with its checks in source order. -/
def read_save_file_header (file_data : List Nat) : SRes SaveFileHeader :=
  if file_data.length < save_file_header_size then .error .invalidFormat
  else
    let header : SaveFileHeader :=
      ⟨read_i32_le file_data 0, read_i32_le file_data 4, read_i32_le file_data 8,
        read_i32_le file_data 12, read_i32_le file_data 16, read_i32_le file_data 20⟩
    if header.magic ≠ mm_save_file_magic ∨ header.compressed_info_size ≤ 0 ∨
        header.decompressed_info_size ≤ 0 ∨ header.compressed_data_size ≤ 0 ∨
        header.decompressed_data_size ≤ 0 then
      .error .invalidFormat
    else if header.version ≠ mm_save_file_supported_version then
      .error (.unsupportedVersion header.version)
    else if header.decompressed_info_size.toNat + header.decompressed_data_size.toNat >
        max_decompressed_buffer_size then
      .error .tooLarge
    else .ok header

/-- A buffer with no double-quote character; on such buffers the brace
scanners never enter their string-skipping branches. -/
def quote_free (json_data : List Char) : Prop := ∀ c ∈ json_data, c ≠ quoteChar

instance quote_free_dec (json_data : List Char) : Decidable (quote_free json_data) :=
  List.decidableBAll _ json_data

/-- Predicate `NeutralSeg json_data i r`: the segment `[i, r)` is a balanced
brace-nesting over non-quote characters — the region a successful forward
brace scan walks through without ever popping its caller's stack. -/
inductive NeutralSeg (json_data : List Char) : Nat → Nat → Prop where
  | refl (i : Nat) : NeutralSeg json_data i i
  | plain (i r : Nat) :
      chAt json_data i ≠ quoteChar → chAt json_data i ≠ lbraceChar →
      chAt json_data i ≠ rbraceChar → chAt json_data i ≠ lbrackChar →
      chAt json_data i ≠ rbrackChar →
      NeutralSeg json_data (i + 1) r → NeutralSeg json_data i r
  | obj (i m r : Nat) :
      chAt json_data i = lbraceChar → chAt json_data m = rbraceChar →
      NeutralSeg json_data (i + 1) m → NeutralSeg json_data (m + 1) r →
      NeutralSeg json_data i r
  | arr (i m r : Nat) :
      chAt json_data i = lbrackChar → chAt json_data m = rbrackChar →
      NeutralSeg json_data (i + 1) m → NeutralSeg json_data (m + 1) r →
      NeutralSeg json_data i r

/-- Per-driver length delta of the spec: `|token(position)| −
|token(original_position)|` for a changed driver, `0` otherwise. -/
def position_delta (d : Driver) : Int :=
  if d.position ≠ d.original_position then
    ((get_position_as_json_value d.position).length : Int) -
      ((get_position_as_json_value d.original_position).length : Int)
  else 0

/-- Total length of the original position tokens of a driver list. -/
def sum_tok_old (ds : List Driver) : Nat :=
  (ds.map (fun d => (get_position_as_json_value d.original_position).length)).sum

/-- Predicate `drivers_chain L nc ds`: starting at cut point `nc`, the drivers' original
tokens lie in order and without overlap inside a data buffer of length `L`. -/
def drivers_chain (L : Nat) : Nat → List Driver → Prop
  | nc, [] => nc ≤ L
  | nc, d :: rest =>
    nc ≤ d.car_id_file_offset ∧
      drivers_chain L
        (d.car_id_file_offset + (get_position_as_json_value d.original_position).length)
        rest

instance drivers_chain_dec (L : Nat) : (nc : Nat) → (ds : List Driver) →
    Decidable (drivers_chain L nc ds)
  | nc, [] => inferInstanceAs (Decidable (nc ≤ L))
  | nc, d :: rest =>
    have := drivers_chain_dec L
      (d.car_id_file_offset + (get_position_as_json_value d.original_position).length)
      rest
    inferInstanceAs (Decidable (_ ∧ _))

/-- The data buffer holds the JSON token of position `p` at `off`, followed by
`,` or `}`. -/
def position_token_at (json_data : List Char) (off : Nat) (p : DriverPosition) : Prop :=
  (∀ k, k < (get_position_as_json_value p).length →
    chAt json_data (off + k) = chAt (get_position_as_json_value p) k) ∧
  (chAt json_data (off + (get_position_as_json_value p).length) = commaChar ∨
    chAt json_data (off + (get_position_as_json_value p).length) = rbraceChar)

/-- What one employer-team back-reference occurrence contributes to the
extraction: `none` when it is not enclosed in a `contract` object or the
enclosing object is not a driver, `some d` for a driver record. -/
def driver_contribution (json_data : List Char) (ref : Nat) : SRes (Option Driver) :=
  match find_employeer_team_ref_contract_offset json_data ref with
  | .error e => .error e
  | .ok none => .ok none
  | .ok (some contract_key_offset) => maybe_get_driver json_data contract_key_offset

/-- The contributions of a list of occurrences, first error aborting. -/
def mapM_contrib (json_data : List Char) : List Nat → SRes (List (Option Driver))
  | [] => .ok []
  | r :: rest =>
    match driver_contribution json_data r with
    | .error e => .error e
    | .ok o =>
      match mapM_contrib json_data rest with
      | .error e => .error e
      | .ok os => .ok (o :: os)

/-- Synthetic data buffer: a player team with id `1287`, three driver
contracts (car 1, car 2, reserve), one staff contract without `mCarID`, and
one employer-team reference not enclosed in a `contract` object. -/
def example_json : List Char := String.toList ("\x22mPlayerTeam\x22:\x7b\x22$id\x22:\x221287\x22\x7d,"
 ++ "\x7b\x22contract\x22:\x7b\x22mEmployeerTeam\x22:\x7b\x22$ref\x22:\x221287\x22\x7d\x7d,\x22mCarID\x22:0,\x22mFirstName\x22:\x22Al\x22,\x22mLastName\x22:\x22Ba\x22\x7d,"
 ++ "\x7b\x22contract\x22:\x7b\x22mEmployeerTeam\x22:\x7b\x22$ref\x22:\x221287\x22\x7d\x7d,\x22mCarID\x22:1,\x22mFirstName\x22:\x22Cy\x22,\x22mLastName\x22:\x22Do\x22\x7d,"
 ++ "\x7b\x22contract\x22:\x7b\x22mEmployeerTeam\x22:\x7b\x22$ref\x22:\x221287\x22\x7d\x7d,\x22mFirstName\x22:\x22St\x22,\x22mLastName\x22:\x22Af\x22\x7d,"
 ++ "\x7b\x22x\x22:\x7b\x22mEmployeerTeam\x22:\x7b\x22$ref\x22:\x221287\x22\x7d\x7d\x7d,"
 ++ "\x7b\x22contract\x22:\x7b\x22mEmployeerTeam\x22:\x7b\x22$ref\x22:\x221287\x22\x7d\x7d,\x22mCarID\x22:-1,\x22mFirstName\x22:\x22Ev\x22,\x22mLastName\x22:\x22Fo\x22\x7d")

/-- Synthetic info buffer whose save name is `NAME` at offset 3, length 4. -/
def example_info : List Char := "abcNAMEdef".toList

/-- Buffer `"a\"b"`: a string with an escaped quote, then its true closing quote. -/
def quote_example : List Char := "\x22a\x5c\x22b\x22".toList

/-- Buffer `\\"x"`: a quote preceded by an even, non-zero backslash run. -/
def backslash_run_example : List Char := "\x5c\x5c\x22x\x22".toList

/-- Buffer `{[]}`: well-nested braces, no strings. -/
def brace_pair_example : List Char := "\x7b[]\x7d".toList

/-- Buffer `[{`: an opening brace in the last byte, with no matching `}` anywhere. -/
def dangling_brace_example : List Char := "[\x7b".toList

/-- Little-endian bytes of the magic number 1932684653. -/
def magic_bytes : List Nat := [109, 109, 50, 115]

/-- A header with correct magic, version 5 (= supported + 1), positive sizes. -/
def header_v5_bytes : List Nat :=
  magic_bytes ++ [5, 0, 0, 0] ++ [1, 0, 0, 0] ++ [1, 0, 0, 0] ++ [1, 0, 0, 0] ++ [1, 0, 0, 0]

/-- A header with correct magic, version 5 and a zero `compressed_info_size`. -/
def header_v5_zero_size_bytes : List Nat :=
  magic_bytes ++ [5, 0, 0, 0] ++ [0, 0, 0, 0] ++ [1, 0, 0, 0] ++ [1, 0, 0, 0] ++ [1, 0, 0, 0]

/-- Drivers whose original tokens overlap in the data buffer `-10` although
they are sorted by offset and each token lies within the buffer. -/
def overlap_d1 : Driver := ⟨[], .car1, .reserve, 0⟩

def overlap_d2 : Driver := ⟨[], .reserve, .car1, 1⟩

def overlap_d3 : Driver := ⟨[], .car1, .car1, 2⟩

def overlap_data : List Char := "-10".toList

def overlap_info : List Char := "ab".toList

/-- Three drivers with disjoint in-order tokens inside a 16-byte buffer. -/
def chain_d1 : Driver := ⟨[], .car1, .reserve, 2⟩

def chain_d2 : Driver := ⟨[], .reserve, .car1, 7⟩

def chain_d3 : Driver := ⟨[], .car2, .car2, 11⟩

def chain_data : List Char := "ab-1cd0efg1hijkl".toList

/-! ## Helper lemmas: backslash runs -/

theorem cpb_loop_shift (json_data : List Char) :
    ∀ k o, k < o →
    count_preceeding_backslashes_loop json_data (o + 1) k =
      count_preceeding_backslashes_loop json_data o k + 1 := by
  intro k
  induction k with
  | zero =>
    intro o ho
    by_cases h : chAt json_data 0 = backslashChar
    · simp [count_preceeding_backslashes_loop, h]
    · simp [count_preceeding_backslashes_loop, h]
      omega
  | succ k IH =>
    intro o ho
    by_cases h : chAt json_data (k + 1) = backslashChar
    · simp only [count_preceeding_backslashes_loop, h]
      simp only [ne_eq, not_true_eq_false, if_false]
      exact IH o (by omega)
    · simp [count_preceeding_backslashes_loop, h]
      omega

theorem cpb_succ_bs (json_data : List Char) (i : Nat)
    (h : chAt json_data i = backslashChar) :
    count_preceeding_backslashes json_data (i + 1) =
      count_preceeding_backslashes json_data i + 1 := by
  cases i with
  | zero =>
    simp [count_preceeding_backslashes, count_preceeding_backslashes_loop, h]
  | succ k =>
    simp only [count_preceeding_backslashes, Nat.succ_ne_zero, if_false,
      Nat.add_sub_cancel]
    simp only [count_preceeding_backslashes_loop, h]
    simp only [ne_eq, not_true_eq_false, if_false]
    exact cpb_loop_shift json_data k (k + 1) (by omega)

theorem cpb_succ_not_bs (json_data : List Char) (i : Nat)
    (h : chAt json_data i ≠ backslashChar) :
    count_preceeding_backslashes json_data (i + 1) = 0 := by
  cases i with
  | zero =>
    simp [count_preceeding_backslashes, count_preceeding_backslashes_loop, h]
  | succ k =>
    simp only [count_preceeding_backslashes, Nat.succ_ne_zero, if_false,
      Nat.add_sub_cancel]
    simp only [count_preceeding_backslashes_loop]
    rw [if_pos h]
    omega

theorem cpb_le (json_data : List Char) :
    ∀ i, count_preceeding_backslashes json_data i ≤ i := by
  intro i
  induction i with
  | zero => simp [count_preceeding_backslashes]
  | succ k IH =>
    by_cases h : chAt json_data k = backslashChar
    · rw [cpb_succ_bs json_data k h]; omega
    · rw [cpb_succ_not_bs json_data k h]; omega

theorem cpb_run_above_quote (json_data : List Char) (a : Nat)
    (hq : chAt json_data a = quoteChar) :
    ∀ j, a < j → count_preceeding_backslashes json_data j ≤ j - a - 1 := by
  intro j
  induction j with
  | zero => omega
  | succ k IH =>
    intro hak
    by_cases hka : a = k
    · subst hka
      rw [cpb_succ_not_bs json_data a (by rw [hq]; decide)]
      omega
    · have hak' : a < k := by omega
      by_cases h : chAt json_data k = backslashChar
      · rw [cpb_succ_bs json_data k h]
        have := IH hak'
        omega
      · rw [cpb_succ_not_bs json_data k h]
        omega

/-! ## C5: the backward quote scan -/

theorem roq_loop_reaches (json_data : List Char) (a : Nat)
    (hq : chAt json_data a = quoteChar)
    (heven : count_preceeding_backslashes json_data a % 2 = 0) :
    ∀ fuel i, i + 1 ≤ fuel → a ≤ i →
    (∀ j, j ≤ i → a < j → chAt json_data j = quoteChar →
      count_preceeding_backslashes json_data j % 2 = 1) →
    rfind_opening_quote_loop json_data fuel i =
      (if count_preceeding_backslashes json_data a = 0 then .ok a
       else .error .malformedJson) := by
  intro fuel
  induction fuel with
  | zero => omega
  | succ fuel IH =>
    intro i hfuel hai hodd
    by_cases hqi : chAt json_data i = quoteChar
    · by_cases hia : i = a
      · subst hia
        by_cases h0 : count_preceeding_backslashes json_data i = 0
        · simp [rfind_opening_quote_loop, hqi, h0]
        · have : ¬ count_preceeding_backslashes json_data i % 2 = 1 := by omega
          simp [rfind_opening_quote_loop, hqi, h0, this]
      · have hai' : a < i := by omega
        have hoddi := hodd i (by omega) hai' hqi
        have hrun := cpb_run_above_quote json_data a hq i hai'
        have hne : ¬ count_preceeding_backslashes json_data i = 0 := by omega
        have hskip : ¬ i - count_preceeding_backslashes json_data i = 0 := by omega
        simp only [rfind_opening_quote_loop]
        rw [if_pos hqi, if_neg hne, if_pos hoddi, if_neg hskip]
        exact IH (i - count_preceeding_backslashes json_data i - 1) (by omega)
          (by omega)
          (fun j hj1 hj2 hj3 => hodd j (by omega) hj2 hj3)
    · have hai' : a < i := by
        rcases Nat.lt_or_ge a i with h | h
        · exact h
        · have : a = i := by omega
          rw [this] at hq
          exact absurd hq hqi
      simp only [rfind_opening_quote_loop]
      rw [if_neg hqi, if_neg (by omega : ¬ i = 0)]
      exact IH (i - 1) (by omega) (by omega)
        (fun j hj1 hj2 hj3 => hodd j (by omega) hj2 hj3)

/-- C5 (amended): the backward scan skips a quote preceded by an odd
backslash run, returns the first quote preceded by no backslash, and fails
with `MalformedJson` on a quote preceded by an even, non-zero run. -/
theorem c5_backward_quote_scan (json_data : List Char) (off a : Nat)
    (ha : a < off) (hq : chAt json_data a = quoteChar)
    (heven : count_preceeding_backslashes json_data a % 2 = 0)
    (hodd : ∀ j, j < off → a < j → chAt json_data j = quoteChar →
      count_preceeding_backslashes json_data j % 2 = 1) :
    rfind_opening_quote json_data off =
      (if count_preceeding_backslashes json_data a = 0 then .ok a
       else .error .malformedJson) := by
  unfold rfind_opening_quote
  rw [if_neg (by omega : ¬ off = 0)]
  exact roq_loop_reaches json_data a hq heven off (off - 1) (by omega) (by omega)
    (fun j hj1 hj2 hj3 => hodd j (by omega) hj2 hj3)

/-- C5 witness: on `"a\"b"` the scan from the closing quote at offset 5 skips
the escaped quote (odd run) and returns the opening quote at offset 0. -/
theorem c5_backward_quote_scan_witness :
    rfind_opening_quote quote_example 5 = .ok 0 := by
  have h := c5_backward_quote_scan quote_example 5 0 (by decide) (by decide)
    (by decide) (by decide)
  simpa using h

/-- C5 counterexample: in `\\"x"` the quote at offset 2 is preceded by an
even-length (2) backslash run; the claim says the scan from offset 4 returns
offset 2, but the code fails with `MalformedJson`. -/
theorem c5_counterexample :
    chAt backslash_run_example 2 = quoteChar ∧
    count_preceeding_backslashes backslash_run_example 2 = 2 ∧
    (∀ j, j < 4 → 2 < j → chAt backslash_run_example j ≠ quoteChar) ∧
    rfind_opening_quote backslash_run_example 4 = .error .malformedJson := by
  decide

/-! ## C8: the forward quote scan -/

theorem fcq_rhs_shift (json_data : List Char) (i j : Nat)
    (hnq : chAt json_data i ≠ quoteChar ∨
      count_preceeding_backslashes json_data i % 2 = 1) :
    (i + 1 ≤ j ∧ j < json_data.length ∧ chAt json_data j = quoteChar ∧
      count_preceeding_backslashes json_data j % 2 = 0 ∧
      ∀ k, k < j → i + 1 ≤ k → chAt json_data k = quoteChar →
        count_preceeding_backslashes json_data k % 2 = 1) ↔
    (i ≤ j ∧ j < json_data.length ∧ chAt json_data j = quoteChar ∧
      count_preceeding_backslashes json_data j % 2 = 0 ∧
      ∀ k, k < j → i ≤ k → chAt json_data k = quoteChar →
        count_preceeding_backslashes json_data k % 2 = 1) := by
  constructor
  · rintro ⟨h1, h2, h3, h4, h5⟩
    refine ⟨by omega, h2, h3, h4, ?_⟩
    intro k hk1 hk2 hk3
    by_cases hki : k = i
    · subst hki
      rcases hnq with h | h
      · exact absurd hk3 h
      · exact h
    · exact h5 k hk1 (by omega) hk3
  · rintro ⟨h1, h2, h3, h4, h5⟩
    refine ⟨?_, h2, h3, h4, ?_⟩
    · by_cases hij : i = j
      · subst hij
        rcases hnq with h | h
        · exact absurd h3 h
        · omega
      · omega
    · intro k hk1 hk2 hk3
      exact h5 k hk1 (by omega) hk3

theorem fcq_loop_char (json_data : List Char) :
    ∀ fuel i, json_data.length + 1 ≤ fuel + i → ∀ j,
    (find_closing_quote_loop json_data fuel i
        (decide (count_preceeding_backslashes json_data i % 2 = 1)) = .ok j ↔
      (i ≤ j ∧ j < json_data.length ∧ chAt json_data j = quoteChar ∧
        count_preceeding_backslashes json_data j % 2 = 0 ∧
        ∀ k, k < j → i ≤ k → chAt json_data k = quoteChar →
          count_preceeding_backslashes json_data k % 2 = 1)) := by
  intro fuel
  induction fuel with
  | zero =>
    intro i hfi j
    constructor
    · intro h
      exact absurd h (by simp [find_closing_quote_loop])
    · rintro ⟨h1, h2, _⟩
      omega
  | succ fuel IH =>
    intro i hfi j
    by_cases hil : i < json_data.length
    · by_cases hbs : chAt json_data i = backslashChar
      · have hflip : (!(decide (count_preceeding_backslashes json_data i % 2 = 1))) =
            decide (count_preceeding_backslashes json_data (i + 1) % 2 = 1) := by
          rw [cpb_succ_bs json_data i hbs]
          rcases Nat.mod_two_eq_zero_or_one (count_preceeding_backslashes json_data i)
            with h | h <;> simp [h, Nat.add_mod]
        have hstep : find_closing_quote_loop json_data (fuel + 1) i
            (decide (count_preceeding_backslashes json_data i % 2 = 1)) =
            find_closing_quote_loop json_data fuel (i + 1)
              (decide (count_preceeding_backslashes json_data (i + 1) % 2 = 1)) := by
          simp only [find_closing_quote_loop]
          rw [if_pos hil, if_pos hbs, hflip]
        rw [hstep, IH (i + 1) (by omega) j]
        exact fcq_rhs_shift json_data i j
          (Or.inl (by rw [hbs]; decide))
      · by_cases hqt : chAt json_data i = quoteChar
        · rcases Nat.mod_two_eq_zero_or_one (count_preceeding_backslashes json_data i)
            with hpar | hpar
          · have hstep : find_closing_quote_loop json_data (fuel + 1) i
                (decide (count_preceeding_backslashes json_data i % 2 = 1)) =
                .ok i := by
              simp only [find_closing_quote_loop]
              rw [if_pos hil, if_neg hbs, if_pos hqt]
              simp [hpar]
            rw [hstep]
            constructor
            · intro h
              have hij : i = j := by
                have := Except.ok.inj h
                omega
              subst hij
              exact ⟨le_refl i, hil, hqt, hpar, fun k hk1 hk2 _ => by omega⟩
            · rintro ⟨h1, h2, h3, h4, h5⟩
              by_cases hij : i = j
              · rw [hij]
              · have : count_preceeding_backslashes json_data i % 2 = 1 :=
                  h5 i (by omega) (le_refl i) hqt
                omega
          · have hstep : find_closing_quote_loop json_data (fuel + 1) i
                (decide (count_preceeding_backslashes json_data i % 2 = 1)) =
                find_closing_quote_loop json_data fuel (i + 1)
                  (decide (count_preceeding_backslashes json_data (i + 1) % 2 = 1)) := by
              simp only [find_closing_quote_loop]
              rw [if_pos hil, if_neg hbs, if_pos hqt]
              have h1 : count_preceeding_backslashes json_data (i + 1) = 0 :=
                cpb_succ_not_bs json_data i (by rw [hqt]; decide)
              simp [hpar, h1]
            rw [hstep, IH (i + 1) (by omega) j]
            exact fcq_rhs_shift json_data i j (Or.inr hpar)
        · have hstep : find_closing_quote_loop json_data (fuel + 1) i
              (decide (count_preceeding_backslashes json_data i % 2 = 1)) =
              find_closing_quote_loop json_data fuel (i + 1)
                (decide (count_preceeding_backslashes json_data (i + 1) % 2 = 1)) := by
            simp only [find_closing_quote_loop]
            rw [if_pos hil, if_neg hbs, if_neg hqt]
            have h1 : count_preceeding_backslashes json_data (i + 1) = 0 :=
              cpb_succ_not_bs json_data i hbs
            simp [h1]
          rw [hstep, IH (i + 1) (by omega) j]
          exact fcq_rhs_shift json_data i j (Or.inl hqt)
    · constructor
      · intro h
        simp only [find_closing_quote_loop, if_neg hil] at h
        exact Except.noConfusion h
      · rintro ⟨h1, h2, _⟩
        omega

theorem fcq_loop_total (json_data : List Char) :
    ∀ fuel i esc, (∃ j, find_closing_quote_loop json_data fuel i esc = .ok j) ∨
      find_closing_quote_loop json_data fuel i esc = .error .malformedJson := by
  intro fuel
  induction fuel with
  | zero => intro i esc; right; rfl
  | succ fuel IH =>
    intro i esc
    by_cases hil : i < json_data.length
    · by_cases hbs : chAt json_data i = backslashChar
      · have hstep : find_closing_quote_loop json_data (fuel + 1) i esc =
            find_closing_quote_loop json_data fuel (i + 1) (!esc) := by
          simp only [find_closing_quote_loop]
          rw [if_pos hil, if_pos hbs]
        rw [hstep]
        exact IH (i + 1) (!esc)
      · by_cases hqt : chAt json_data i = quoteChar
        · cases esc with
          | false =>
            have hstep : find_closing_quote_loop json_data (fuel + 1) i false =
                .ok i := by
              simp only [find_closing_quote_loop]
              rw [if_pos hil, if_neg hbs, if_pos hqt]
              rfl
            rw [hstep]
            exact Or.inl ⟨i, rfl⟩
          | true =>
            have hstep : find_closing_quote_loop json_data (fuel + 1) i true =
                find_closing_quote_loop json_data fuel (i + 1) false := by
              simp only [find_closing_quote_loop]
              rw [if_pos hil, if_neg hbs, if_pos hqt]
              rfl
            rw [hstep]
            exact IH (i + 1) false
        · have hstep : find_closing_quote_loop json_data (fuel + 1) i esc =
              find_closing_quote_loop json_data fuel (i + 1) false := by
            simp only [find_closing_quote_loop]
            rw [if_pos hil, if_neg hbs, if_neg hqt]
          rw [hstep]
          exact IH (i + 1) false
    · right
      simp only [find_closing_quote_loop]
      rw [if_neg hil]

/-- C8: `find_closing_quote` returns exactly the first double quote after the
opening quote that is preceded by an even backslash run (the `escaped` flag
discipline), and fails with `MalformedJson` precisely when no such quote
exists before the buffer ends. -/
theorem c8_forward_quote_scan (json_data : List Char) (off : Nat)
    (hoq : chAt json_data off = quoteChar) :
    (∀ j, find_closing_quote json_data off = .ok j ↔
      (off < j ∧ j < json_data.length ∧ chAt json_data j = quoteChar ∧
        count_preceeding_backslashes json_data j % 2 = 0 ∧
        ∀ k, k < j → off < k → chAt json_data k = quoteChar →
          count_preceeding_backslashes json_data k % 2 = 1)) ∧
    (find_closing_quote json_data off = .error .malformedJson ↔
      ∀ j, ¬(off < j ∧ j < json_data.length ∧ chAt json_data j = quoteChar ∧
        count_preceeding_backslashes json_data j % 2 = 0 ∧
        ∀ k, k < j → off < k → chAt json_data k = quoteChar →
          count_preceeding_backslashes json_data k % 2 = 1)) := by
  have hz : count_preceeding_backslashes json_data (off + 1) = 0 :=
    cpb_succ_not_bs json_data off (by rw [hoq]; decide)
  have hfalse : (false : Bool) =
      decide (count_preceeding_backslashes json_data (off + 1) % 2 = 1) := by
    simp [hz]
  have hmain : ∀ j, find_closing_quote json_data off = .ok j ↔
      (off < j ∧ j < json_data.length ∧ chAt json_data j = quoteChar ∧
        count_preceeding_backslashes json_data j % 2 = 0 ∧
        ∀ k, k < j → off < k → chAt json_data k = quoteChar →
          count_preceeding_backslashes json_data k % 2 = 1) := by
    intro j
    unfold find_closing_quote
    rw [hfalse, fcq_loop_char json_data (json_data.length + 1 - off) (off + 1)
      (by omega) j]
    constructor
    · rintro ⟨h1, h2, h3, h4, h5⟩
      exact ⟨by omega, h2, h3, h4, fun k hk1 hk2 hk3 => h5 k hk1 (by omega) hk3⟩
    · rintro ⟨h1, h2, h3, h4, h5⟩
      exact ⟨by omega, h2, h3, h4, fun k hk1 hk2 hk3 => h5 k hk1 (by omega) hk3⟩
  refine ⟨hmain, ?_, ?_⟩
  · intro herr j hrhs
    have := (hmain j).mpr hrhs
    rw [herr] at this
    exact Except.noConfusion this
  · intro hno
    rcases fcq_loop_total json_data (json_data.length + 1 - off) (off + 1) false with
      ⟨j, hj⟩ | herr
    · have : find_closing_quote json_data off = .ok j := by
        unfold find_closing_quote
        exact hj
      exact absurd ((hmain j).mp this) (hno j)
    · unfold find_closing_quote
      exact herr

/-- C8 witness: on `"a\"b"` the scan from the opening quote at offset 0 skips
the escaped quote at offset 3 and returns the closing quote at offset 5. -/
theorem c8_forward_quote_scan_witness :
    find_closing_quote quote_example 0 = .ok 5 :=
  ((c8_forward_quote_scan quote_example 0 (by decide)).1 5).mpr (by decide)

/-! ## C7: the header version gate -/

/-- C7 (amended): a too-short file, a magic mismatch, or a non-positive size
field each yield `InvalidFormat`; with the magic correct and all four sizes
positive, a version other than 4 yields `UnsupportedVersion` carrying the
observed version.  (The source checks sizes before the version, so a bad size
wins over a bad version.) -/
theorem c7_version_gate (file_data : List Nat) :
    (file_data.length < save_file_header_size →
      read_save_file_header file_data = .error .invalidFormat) ∧
    (save_file_header_size ≤ file_data.length →
      read_i32_le file_data 0 ≠ mm_save_file_magic →
      read_save_file_header file_data = .error .invalidFormat) ∧
    (save_file_header_size ≤ file_data.length →
      (read_i32_le file_data 8 ≤ 0 ∨ read_i32_le file_data 12 ≤ 0 ∨
        read_i32_le file_data 16 ≤ 0 ∨ read_i32_le file_data 20 ≤ 0) →
      read_save_file_header file_data = .error .invalidFormat) ∧
    (save_file_header_size ≤ file_data.length →
      read_i32_le file_data 0 = mm_save_file_magic →
      0 < read_i32_le file_data 8 → 0 < read_i32_le file_data 12 →
      0 < read_i32_le file_data 16 → 0 < read_i32_le file_data 20 →
      read_i32_le file_data 4 ≠ mm_save_file_supported_version →
      read_save_file_header file_data =
        .error (.unsupportedVersion (read_i32_le file_data 4))) := by
  refine ⟨?_, ?_, ?_, ?_⟩
  · intro hlen
    simp only [read_save_file_header]
    rw [if_pos hlen]
  · intro hlen hm
    simp only [read_save_file_header]
    rw [if_neg (by omega : ¬ file_data.length < save_file_header_size),
      if_pos (Or.inl hm)]
  · intro hlen hsz
    simp only [read_save_file_header]
    rw [if_neg (by omega : ¬ file_data.length < save_file_header_size)]
    rcases hsz with h | h | h | h
    · rw [if_pos (Or.inr (Or.inl h))]
    · rw [if_pos (Or.inr (Or.inr (Or.inl h)))]
    · rw [if_pos (Or.inr (Or.inr (Or.inr (Or.inl h))))]
    · rw [if_pos (Or.inr (Or.inr (Or.inr (Or.inr h))))]
  · intro hlen hm h8 h12 h16 h20 hv
    simp only [read_save_file_header]
    rw [if_neg (by omega : ¬ file_data.length < save_file_header_size)]
    rw [if_neg (by push_neg; exact ⟨hm, by omega, by omega, by omega, by omega⟩)]
    rw [if_pos hv]

/-- C7 witness: correct magic, positive sizes and version 5 yield
`UnsupportedVersion 5`. -/
theorem c7_version_gate_witness :
    read_save_file_header header_v5_bytes = .error (.unsupportedVersion 5) := by
  have h := (c7_version_gate header_v5_bytes).2.2.2 (by decide) (by decide)
    (by decide) (by decide) (by decide) (by decide) (by decide)
  have hv : read_i32_le header_v5_bytes 4 = 5 := by decide
  rw [hv] at h
  exact h

/-- C7 counterexample: a 24-byte header with correct magic, version 5 and a
zero `compressed_info_size` fails with `InvalidFormat`, not with
`UnsupportedVersion 5` as the claim (read as an unconditional version gate)
requires. -/
theorem c7_counterexample :
    header_v5_zero_size_bytes.length = save_file_header_size ∧
    read_i32_le header_v5_zero_size_bytes 0 = mm_save_file_magic ∧
    read_i32_le header_v5_zero_size_bytes 4 = 5 ∧
    read_save_file_header header_v5_zero_size_bytes = .error .invalidFormat ∧
    read_save_file_header header_v5_zero_size_bytes ≠
      .error (.unsupportedVersion 5) := by
  decide

/-! ## C6: brace matching failure -/

/-- C6: in the buffer `[{` the opening brace at offset 1 has no matching `}`
anywhere, yet `find_matching_brace` returns offset 0 (the unrelated `[`)
instead of failing with `MalformedJson`: the opening-brace case of the switch
falls through into the closing-brace case when the brace is the last byte. -/
theorem c6_missing_brace_not_detected :
    chAt dangling_brace_example 1 = lbraceChar ∧
    (∀ j, j < dangling_brace_example.length →
      chAt dangling_brace_example j ≠ rbraceChar) ∧
    find_matching_brace dangling_brace_example 1 = .ok 0 ∧
    chAt dangling_brace_example 0 = lbrackChar := by
  decide

/-- C10 counterexample: `find_matching_brace` on `[{` maps offset 1 to offset
0, but maps offset 0 to `MalformedJson`, so the round trip fails. -/
theorem c10_counterexample :
    chAt dangling_brace_example 1 = lbraceChar ∧
    find_matching_brace dangling_brace_example 1 = .ok 0 ∧
    find_matching_brace dangling_brace_example 0 = .error .malformedJson := by
  decide

/-! ## C2: size accounting -/

theorem tok_len_cases (p : DriverPosition) :
    (get_position_as_json_value p).length = 1 ∨
      (get_position_as_json_value p).length = 2 := by
  cases p <;> simp [get_position_as_json_value]

theorem position_delta_eq (d : Driver) :
    position_delta d = ((get_position_as_json_value d.position).length : Int) -
      ((get_position_as_json_value d.original_position).length : Int) := by
  unfold position_delta
  by_cases h : d.position = d.original_position
  · simp [h]
  · simp [h]

theorem sizeT_sub_exact (a b : Nat) (hb : b ≤ a) (ha : a < szW) :
    sizeT_sub a b = a - b := by
  simp only [sizeT_sub, szW] at *
  omega

theorem sizeT_add_exact (a b : Nat) (h : a + b < szW) : sizeT_add a b = a + b := by
  simp only [sizeT_add, szW] at *
  omega

theorem data_out_size_spec : ∀ (ds : List Driver) (s : Nat),
    sum_tok_old ds ≤ s → s + ds.length < szW →
    (data_out_size s ds : Int) = (s : Int) + (ds.map position_delta).sum := by
  intro ds
  induction ds with
  | nil =>
    intro s h1 h2
    simp [data_out_size]
  | cons d rest IH =>
    intro s h1 h2
    have htO := tok_len_cases d.original_position
    have htN := tok_len_cases d.position
    have hsum : sum_tok_old (d :: rest) =
        (get_position_as_json_value d.original_position).length + sum_tok_old rest := by
      simp [sum_tok_old]
    have hW : szW = 18446744073709551616 := rfl
    have hlen : (d :: rest).length = rest.length + 1 := rfl
    have hstep : sizeT_add
        (sizeT_sub s (get_position_as_json_value d.original_position).length)
        (get_position_as_json_value d.position).length =
        s - (get_position_as_json_value d.original_position).length +
          (get_position_as_json_value d.position).length := by
      rw [sizeT_sub_exact _ _ (by omega) (by omega),
        sizeT_add_exact _ _ (by omega)]
    have hunf : data_out_size s (d :: rest) =
        data_out_size (s - (get_position_as_json_value d.original_position).length +
          (get_position_as_json_value d.position).length) rest := by
      simp only [data_out_size, List.foldl_cons]
      rw [hstep]
    rw [hunf, IH _ (by omega) (by omega), List.map_cons, List.sum_cons,
      position_delta_eq]
    omega

/-- C2: the computed new info length is `original − old name + new name`, and
the computed new data length is `original + Σ (new token − old token)` over the
drivers whose position changed (unchanged drivers contribute delta 0). -/
theorem c2_size_accounting (original_save_info_size original_save_name_size
    new_save_name_size original_save_data_size : Nat) (drivers : List Driver)
    (hname : original_save_name_size ≤ original_save_info_size)
    (hinfo_wide : original_save_info_size < szW)
    (hinfo_wide2 :
      original_save_info_size - original_save_name_size + new_save_name_size < szW)
    (htok : sum_tok_old drivers ≤ original_save_data_size)
    (hdata_wide : original_save_data_size + drivers.length < szW) :
    info_out_size original_save_info_size original_save_name_size
      new_save_name_size =
      original_save_info_size - original_save_name_size + new_save_name_size ∧
    (data_out_size original_save_data_size drivers : Int) =
      (original_save_data_size : Int) + (drivers.map position_delta).sum := by
  constructor
  · unfold info_out_size
    rw [sizeT_sub_exact _ _ hname hinfo_wide, sizeT_add_exact _ _ hinfo_wide2]
  · exact data_out_size_spec drivers original_save_data_size htok hdata_wide

/-- C2 witness: concrete sizes and the three `chain` drivers (one widening
edit, one narrowing edit, one unchanged). -/
theorem c2_size_accounting_witness :
    info_out_size 10 4 7 = 13 ∧
    (data_out_size 16 [chain_d1, chain_d2, chain_d3] : Int) = 16 := by
  have h := c2_size_accounting 10 4 7 16 [chain_d1, chain_d2, chain_d3]
    (by decide) (by decide) (by decide) (by decide) (by decide)
  have h1 : (10 : Nat) - 4 + 7 = 13 := by decide
  have h2 : (([chain_d1, chain_d2, chain_d3].map position_delta).sum : Int) = 0 := by
    decide
  rw [h1] at h
  rw [h2] at h
  have h3 : ((16 : Nat) : Int) + 0 = 16 := by decide
  rw [h3] at h
  exact h

/-! ## C1: the no-op round trip -/

theorem sizeT_sub_add_noop (s t : Nat) (hs : s < szW) (ht : t < szW) :
    sizeT_add (sizeT_sub s t) t = s := by
  simp only [sizeT_sub, sizeT_add, szW] at *
  omega

theorem data_out_size_noop : ∀ (ds : List Driver) (s : Nat), s < szW →
    (∀ d ∈ ds, d.position = d.original_position) → data_out_size s ds = s := by
  intro ds
  induction ds with
  | nil =>
    intro s hs h
    simp [data_out_size]
  | cons d rest IH =>
    intro s hs h
    have hd : d.position = d.original_position := h d (List.mem_cons_self d rest)
    have htok := tok_len_cases d.original_position
    have hW : szW = 18446744073709551616 := rfl
    have hstep : sizeT_add
        (sizeT_sub s (get_position_as_json_value d.original_position).length)
        (get_position_as_json_value d.position).length = s := by
      rw [hd]
      exact sizeT_sub_add_noop s _ hs (by omega)
    have hunf : data_out_size s (d :: rest) =
        data_out_size (sizeT_add
          (sizeT_sub s (get_position_as_json_value d.original_position).length)
          (get_position_as_json_value d.position).length) rest := by
      simp only [data_out_size, List.foldl_cons]
    rw [hunf, hstep]
    exact IH s hs (fun d' hd' => h d' (List.mem_cons_of_mem d hd'))

theorem write_drivers_loop_noop (original_save_data : List Char) :
    ∀ (ds : List Driver) (nc : Nat) (b : OutBuf),
    (∀ d ∈ ds, d.position = d.original_position) →
    write_drivers_loop original_save_data ds nc b = .ok (b, nc) := by
  intro ds
  induction ds with
  | nil => intro nc b _; rfl
  | cons d rest IH =>
    intro nc b h
    have hd : d.position = d.original_position := h d (List.mem_cons_self d rest)
    simp only [write_drivers_loop]
    rw [if_neg (by simp [hd])]
    exact IH nc b (fun d' hd' => h d' (List.mem_cons_of_mem d hd'))

theorem copy_to_buffer_ok (s : List Char) (b : OutBuf) (h : s.length ≤ b.remaining) :
    copy_to_buffer s b = .ok ⟨b.written ++ s, b.remaining - s.length⟩ := by
  unfold copy_to_buffer
  rw [if_neg (by omega)]

theorem take_take_drop_splice {α : Type} (l : List α) (a n : Nat) :
    l.take a ++ ((l.drop a).take n ++ l.drop (a + n)) = l := by
  have h1 := List.take_append_drop n (l.drop a)
  rw [List.drop_drop] at h1
  rw [h1, List.take_append_drop]

/-- C1: rebuilding the buffers with every driver's `position` equal to its
`original_position` and the new save name equal to the original one yields
info and data buffers byte-identical to the originals. -/
theorem c1_noop_round_trip (original_save_info original_save_data : List Char)
    (original_save_name_offset original_save_name_size : Nat)
    (drivers : List Driver)
    (hname : original_save_name_offset + original_save_name_size ≤
      original_save_info.length)
    (hWI : original_save_info.length < szW)
    (hWD : original_save_data.length < szW)
    (hunch : ∀ d ∈ drivers, d.position = d.original_position) :
    create_uncompressed_output original_save_info original_save_data
      original_save_name_offset original_save_name_size
      (substr_count original_save_info original_save_name_offset
        original_save_name_size)
      drivers = .ok (original_save_info, original_save_data) := by
  have hW : szW = 18446744073709551616 := rfl
  have hWI' : original_save_info.length < 18446744073709551616 := by omega
  have hnlen : (substr_count original_save_info original_save_name_offset
      original_save_name_size).length = original_save_name_size := by
    simp [substr_count]
    omega
  have hsz1 : info_out_size original_save_info.length original_save_name_size
      (substr_count original_save_info original_save_name_offset
        original_save_name_size).length = original_save_info.length := by
    rw [hnlen]
    simp only [info_out_size, sizeT_sub, sizeT_add, szW]
    omega
  have hsz2 : data_out_size original_save_data.length drivers =
      original_save_data.length :=
    data_out_size_noop drivers original_save_data.length hWD hunch
  have hlen1 : (substr_count original_save_info 0 original_save_name_offset).length =
      original_save_name_offset := by
    simp [substr_count]
    omega
  have hc1 : copy_to_buffer
      (substr_count original_save_info 0 original_save_name_offset)
      ⟨[], original_save_info.length⟩ =
      .ok ⟨original_save_info.take original_save_name_offset,
        original_save_info.length - original_save_name_offset⟩ := by
    rw [copy_to_buffer_ok _ _ (by rw [hlen1]; dsimp only; omega)]
    rw [hlen1]
    simp only [substr_count, List.drop_zero, List.nil_append]
  have hc2 : copy_to_buffer
      (substr_count original_save_info original_save_name_offset
        original_save_name_size)
      ⟨original_save_info.take original_save_name_offset,
        original_save_info.length - original_save_name_offset⟩ =
      .ok ⟨original_save_info.take original_save_name_offset ++
          ((original_save_info.drop original_save_name_offset).take
            original_save_name_size),
        original_save_info.length - original_save_name_offset -
          original_save_name_size⟩ := by
    rw [copy_to_buffer_ok _ _ (by rw [hnlen]; dsimp only; omega)]
    rw [hnlen]
    rfl
  have hc3 : copy_to_buffer
      (substr_from original_save_info
        (original_save_name_offset + original_save_name_size))
      ⟨original_save_info.take original_save_name_offset ++
          ((original_save_info.drop original_save_name_offset).take
            original_save_name_size),
        original_save_info.length - original_save_name_offset -
          original_save_name_size⟩ =
      .ok ⟨original_save_info, 0⟩ := by
    rw [copy_to_buffer_ok _ _ (by dsimp only; simp [substr_from]; omega)]
    simp only [substr_from, Except.ok.injEq, OutBuf.mk.injEq, List.append_assoc]
    constructor
    · exact take_take_drop_splice original_save_info original_save_name_offset
        original_save_name_size
    · simp
      omega
  have hloop : write_drivers_loop original_save_data drivers 0
      ⟨[], original_save_data.length⟩ = .ok (⟨[], original_save_data.length⟩, 0) :=
    write_drivers_loop_noop original_save_data drivers 0 _ hunch
  have hc4 : copy_to_buffer (substr_from original_save_data 0)
      ⟨[], original_save_data.length⟩ = .ok ⟨original_save_data, 0⟩ := by
    rw [copy_to_buffer_ok _ _ (by simp [substr_from])]
    simp [substr_from]
  simp only [create_uncompressed_output, hsz1, hsz2, hc1, hc2, hc3, hloop, hc4]
  simp

/-- C1 witness: on the synthetic save, rebuilding with unchanged positions and
the original name reproduces both buffers byte-for-byte. -/
theorem c1_noop_round_trip_witness :
    create_uncompressed_output example_info example_json 3 4
      (substr_count example_info 3 4)
      [⟨"Al Ba".toList, .car1, .car1, 85⟩, ⟨"Cy Do".toList, .car2, .car2, 179⟩,
        ⟨"Ev Fo".toList, .reserve, .reserve, 397⟩] =
      .ok (example_info, example_json) :=
  c1_noop_round_trip example_info example_json 3 4 _ (by decide) (by decide)
    (by decide) (by decide)

/-! ## C3: exact fill of the output buffers -/

theorem drivers_chain_le (L : Nat) : ∀ (ds : List Driver) (nc : Nat),
    drivers_chain L nc ds → nc ≤ L := by
  intro ds
  induction ds with
  | nil => intro nc h; exact h
  | cons d rest IH =>
    intro nc h
    have h2 := IH _ h.2
    have h1 := h.1
    have htok := tok_len_cases d.original_position
    omega

theorem drivers_chain_mono (L : Nat) : ∀ (ds : List Driver) (nc nc' : Nat),
    nc ≤ nc' → drivers_chain L nc' ds → drivers_chain L nc ds := by
  intro ds
  cases ds with
  | nil => intro nc nc' hle h; exact le_trans hle h
  | cons d rest => intro nc nc' hle h; exact ⟨le_trans hle h.1, h.2⟩

theorem drivers_chain_sum (L : Nat) : ∀ (ds : List Driver) (nc : Nat),
    drivers_chain L nc ds → nc + sum_tok_old ds ≤ L := by
  intro ds
  induction ds with
  | nil =>
    intro nc h
    have h' : nc ≤ L := h
    simp only [sum_tok_old, List.map_nil, List.sum_nil]
    omega
  | cons d rest IH =>
    intro nc h
    have h2 := IH _ h.2
    have h1 := h.1
    have hsum : sum_tok_old (d :: rest) =
        (get_position_as_json_value d.original_position).length + sum_tok_old rest := by
      simp [sum_tok_old]
    omega

theorem delta_sum_lower : ∀ ds : List Driver,
    -(sum_tok_old ds : Int) ≤ (ds.map position_delta).sum := by
  intro ds
  induction ds with
  | nil => simp [sum_tok_old]
  | cons d rest IH =>
    have hδ := position_delta_eq d
    have htN := tok_len_cases d.position
    have hsum : sum_tok_old (d :: rest) =
        (get_position_as_json_value d.original_position).length + sum_tok_old rest := by
      simp [sum_tok_old]
    simp only [List.map_cons, List.sum_cons]
    omega

theorem write_drivers_loop_spec (original_save_data : List Char)
    (hW : original_save_data.length < szW) :
    ∀ (ds : List Driver) (nc : Nat) (b : OutBuf),
    drivers_chain original_save_data.length nc ds →
    (b.remaining : Int) = (original_save_data.length : Int) - nc +
      (ds.map position_delta).sum →
    ∃ b' nc', write_drivers_loop original_save_data ds nc b = .ok (b', nc') ∧
      nc' ≤ original_save_data.length ∧
      (b'.remaining : Int) = (original_save_data.length : Int) - nc' := by
  intro ds
  induction ds with
  | nil =>
    intro nc b hchain hrem
    refine ⟨b, nc, rfl, hchain, ?_⟩
    simpa using hrem
  | cons d rest IH =>
    intro nc b hchain hrem
    obtain ⟨h1, h2⟩ := hchain
    have hnc_le := drivers_chain_le _ rest _ h2
    have hsum2 := drivers_chain_sum _ rest _ h2
    have hδrest := delta_sum_lower rest
    have htO := tok_len_cases d.original_position
    have htN := tok_len_cases d.position
    have hδ := position_delta_eq d
    have hSig : ((d :: rest).map position_delta).sum =
        position_delta d + (rest.map position_delta).sum := by
      simp
    have hWn : szW = 18446744073709551616 := rfl
    by_cases hch : d.position ≠ d.original_position
    · have hsub : sizeT_sub d.car_id_file_offset nc = d.car_id_file_offset - nc :=
        sizeT_sub_exact _ _ h1 (by omega)
      have hslen : (substr_count original_save_data nc
          (sizeT_sub d.car_id_file_offset nc)).length =
          d.car_id_file_offset - nc := by
        rw [hsub]
        simp [substr_count]
        omega
      have hcond1 : (substr_count original_save_data nc
          (sizeT_sub d.car_id_file_offset nc)).length ≤ b.remaining := by
        rw [hslen]
        omega
      have e1 := copy_to_buffer_ok _ b hcond1
      have hcond2 : (get_position_as_json_value d.position).length ≤
          b.remaining - (substr_count original_save_data nc
            (sizeT_sub d.car_id_file_offset nc)).length := by
        rw [hslen]
        omega
      have e2 := copy_to_buffer_ok (get_position_as_json_value d.position)
        ⟨b.written ++ substr_count original_save_data nc
          (sizeT_sub d.car_id_file_offset nc),
          b.remaining - (substr_count original_save_data nc
            (sizeT_sub d.car_id_file_offset nc)).length⟩ (by dsimp only; exact hcond2)
      simp only [write_drivers_loop, if_pos hch, e1, e2]
      exact IH _ _ h2 (by dsimp only; rw [hslen]; omega)
    · have hd : d.position = d.original_position := not_not.mp hch
      have hd0 : position_delta d = 0 := by
        simp [position_delta, hd]
      simp only [write_drivers_loop, if_neg hch]
      exact IH _ _ (drivers_chain_mono _ rest nc _ (by omega) h2) (by omega)

/-- C3 (amended): when the three drivers' original tokens lie in order and
without overlap inside the data buffer and the save name lies inside the info
buffer, the one-forward-pass construction fills both buffers exactly: neither
the per-copy overflow branch nor the leftover-capacity branch (both
`InternalError`) is taken, for every choice of target positions and new name. -/
theorem c3_fill_exactness (original_save_info original_save_data : List Char)
    (original_save_name_offset original_save_name_size : Nat)
    (new_save_name : List Char) (d1 d2 d3 : Driver)
    (hname : original_save_name_offset + original_save_name_size ≤
      original_save_info.length)
    (hWI : original_save_info.length < szW)
    (hWN : original_save_info.length - original_save_name_size +
      new_save_name.length < szW)
    (hWD : original_save_data.length + 3 < szW)
    (hchain : drivers_chain original_save_data.length 0 [d1, d2, d3]) :
    ∃ out, create_uncompressed_output original_save_info original_save_data
      original_save_name_offset original_save_name_size new_save_name
      [d1, d2, d3] = .ok out := by
  have hWn : szW = 18446744073709551616 := rfl
  have hWD' : original_save_data.length < szW := by omega
  have hsz1 : info_out_size original_save_info.length original_save_name_size
      new_save_name.length =
      original_save_info.length - original_save_name_size + new_save_name.length := by
    simp only [info_out_size]
    rw [sizeT_sub_exact _ _ (by omega) hWI, sizeT_add_exact _ _ hWN]
  have hsum0 := drivers_chain_sum _ [d1, d2, d3] 0 hchain
  have hlen3 : ([d1, d2, d3] : List Driver).length = 3 := rfl
  have hsz2 : (data_out_size original_save_data.length [d1, d2, d3] : Int) =
      (original_save_data.length : Int) +
        (([d1, d2, d3] : List Driver).map position_delta).sum :=
    data_out_size_spec [d1, d2, d3] original_save_data.length (by omega) (by omega)
  have hlen1 : (substr_count original_save_info 0 original_save_name_offset).length =
      original_save_name_offset := by
    simp [substr_count]
    omega
  have e1 := copy_to_buffer_ok
    (substr_count original_save_info 0 original_save_name_offset)
    ⟨[], info_out_size original_save_info.length original_save_name_size
      new_save_name.length⟩ (by dsimp only; rw [hlen1, hsz1]; omega)
  have e2 := copy_to_buffer_ok new_save_name
    ⟨[] ++ substr_count original_save_info 0 original_save_name_offset,
      info_out_size original_save_info.length original_save_name_size
        new_save_name.length -
        (substr_count original_save_info 0 original_save_name_offset).length⟩
    (by dsimp only; rw [hlen1, hsz1]; omega)
  have hlen_tail : (substr_from original_save_info
      (original_save_name_offset + original_save_name_size)).length =
      original_save_info.length -
        (original_save_name_offset + original_save_name_size) := by
    simp [substr_from]
  have e3 := copy_to_buffer_ok
    (substr_from original_save_info
      (original_save_name_offset + original_save_name_size))
    ⟨([] ++ substr_count original_save_info 0 original_save_name_offset) ++
        new_save_name,
      info_out_size original_save_info.length original_save_name_size
        new_save_name.length -
        (substr_count original_save_info 0 original_save_name_offset).length -
        new_save_name.length⟩
    (by dsimp only; rw [hlen_tail, hlen1, hsz1]; omega)
  obtain ⟨b', nc', hloop, hnc', hrem'⟩ :=
    write_drivers_loop_spec original_save_data hWD' [d1, d2, d3] 0
      ⟨[], data_out_size original_save_data.length [d1, d2, d3]⟩ hchain
      (by dsimp only; rw [hsz2]; simp)
  have hremN : b'.remaining = original_save_data.length - nc' := by omega
  have e4 : copy_to_buffer (substr_from original_save_data nc') b' =
      .ok ⟨b'.written ++ original_save_data.drop nc', 0⟩ := by
    rw [copy_to_buffer_ok _ _ (by simp [substr_from]; omega)]
    simp only [substr_from, Except.ok.injEq, OutBuf.mk.injEq, List.length_drop,
      eq_self_iff_true, true_and]
    omega
  have hinfo_rem : info_out_size original_save_info.length original_save_name_size
      new_save_name.length -
      (substr_count original_save_info 0 original_save_name_offset).length -
      new_save_name.length -
      (substr_from original_save_info
        (original_save_name_offset + original_save_name_size)).length = 0 := by
    rw [hlen_tail, hlen1, hsz1]
    omega
  simp only [create_uncompressed_output, e1, e2, e3, hloop, e4]
  rw [hinfo_rem]
  simp

/-- C3 witness: non-overlapping in-order drivers inside a 16-byte buffer, with
two changed positions and a different-length name, build without error. -/
theorem c3_fill_exactness_witness :
    ∃ out, create_uncompressed_output overlap_info chain_data 0 1 "xy".toList
      [chain_d1, chain_d2, chain_d3] = .ok out :=
  c3_fill_exactness overlap_info chain_data 0 1 "xy".toList chain_d1 chain_d2
    chain_d3 (by decide) (by decide) (by decide) (by decide) (by decide)

/-- C3 counterexample: three drivers sorted by strictly ascending offset, each
original token in bounds, but with overlapping tokens — the claim's stated
preconditions hold, yet construction raises `InternalError` (the per-copy
overflow branch fires). -/
theorem c3_counterexample :
    overlap_d1.car_id_file_offset < overlap_d2.car_id_file_offset ∧
    overlap_d2.car_id_file_offset < overlap_d3.car_id_file_offset ∧
    overlap_d1.car_id_file_offset +
      (get_position_as_json_value overlap_d1.original_position).length ≤
      overlap_data.length ∧
    overlap_d2.car_id_file_offset +
      (get_position_as_json_value overlap_d2.original_position).length ≤
      overlap_data.length ∧
    overlap_d3.car_id_file_offset +
      (get_position_as_json_value overlap_d3.original_position).length ≤
      overlap_data.length ∧
    0 + 1 ≤ overlap_info.length ∧
    create_uncompressed_output overlap_info overlap_data 0 1 "a".toList
      [overlap_d1, overlap_d2, overlap_d3] = .error .internalError := by
  decide

/-! ## C10: the brace-matching round trip -/

theorem qf_chAt (json_data : List Char) (hqf : quote_free json_data) (i : Nat) :
    chAt json_data i ≠ quoteChar := by
  unfold chAt
  by_cases h : i < json_data.length
  · rw [List.getD_eq_getElem _ _ h]
    exact hqf _ (List.getElem_mem _)
  · rw [List.getD_eq_default _ _ (by omega)]
    decide

theorem neutral_le (json_data : List Char) {i r : Nat}
    (h : NeutralSeg json_data i r) : i ≤ r := by
  induction h with
  | refl i => omega
  | plain i r _ _ _ _ _ _ IH => omega
  | obj i m r _ _ _ _ IH1 IH2 => omega
  | arr i m r _ _ _ _ IH1 IH2 => omega

theorem fcb_loop_neutral (json_data : List Char) (hqf : quote_free json_data) :
    ∀ fuel i c σ r, find_closing_brace_loop json_data fuel i (c :: σ) = .ok r →
    ∃ m, NeutralSeg json_data i m ∧ chAt json_data m = c ∧
      (σ = [] → m = r) ∧
      (σ ≠ [] → ∃ fuel', fuel' < fuel ∧
        find_closing_brace_loop json_data fuel' (m + 1) σ = .ok r) := by
  intro fuel
  induction fuel using Nat.strong_induction_on with
  | _ fuel IH =>
    intro i c σ r hok
    cases fuel with
    | zero => exact absurd hok (by simp [find_closing_brace_loop])
    | succ fuel =>
      by_cases hil : i < json_data.length
      · have hq := qf_chAt json_data hqf i
        by_cases h1 : chAt json_data i = lbraceChar
        · have hstep : find_closing_brace_loop json_data (fuel + 1) i (c :: σ) =
              find_closing_brace_loop json_data fuel (i + 1)
                (rbraceChar :: c :: σ) := by
            simp only [find_closing_brace_loop]
            rw [if_pos hil, if_neg hq, if_pos (Or.inl h1), if_pos h1]
          rw [hstep] at hok
          obtain ⟨m1, hn1, hc1, _, hrec1⟩ :=
            IH fuel (by omega) (i + 1) rbraceChar (c :: σ) r hok
          obtain ⟨f1, hf1, hok1⟩ := hrec1 (by simp)
          obtain ⟨m, hn2, hc2, hleft, hright⟩ :=
            IH f1 (by omega) (m1 + 1) c σ r hok1
          refine ⟨m, NeutralSeg.obj i m1 m h1 hc1 hn1 hn2, hc2, hleft, ?_⟩
          intro hσ
          obtain ⟨f2, hf2, hok2⟩ := hright hσ
          exact ⟨f2, by omega, hok2⟩
        · by_cases h2 : chAt json_data i = lbrackChar
          · have hstep : find_closing_brace_loop json_data (fuel + 1) i (c :: σ) =
                find_closing_brace_loop json_data fuel (i + 1)
                  (rbrackChar :: c :: σ) := by
              simp only [find_closing_brace_loop]
              rw [if_pos hil, if_neg hq, if_pos (Or.inr h2), if_neg h1]
            rw [hstep] at hok
            obtain ⟨m1, hn1, hc1, _, hrec1⟩ :=
              IH fuel (by omega) (i + 1) rbrackChar (c :: σ) r hok
            obtain ⟨f1, hf1, hok1⟩ := hrec1 (by simp)
            obtain ⟨m, hn2, hc2, hleft, hright⟩ :=
              IH f1 (by omega) (m1 + 1) c σ r hok1
            refine ⟨m, NeutralSeg.arr i m1 m h2 hc1 hn1 hn2, hc2, hleft, ?_⟩
            intro hσ
            obtain ⟨f2, hf2, hok2⟩ := hright hσ
            exact ⟨f2, by omega, hok2⟩
          · by_cases h34 : chAt json_data i = rbraceChar ∨ chAt json_data i = rbrackChar
            · have h1' : chAt json_data i ≠ lbraceChar := h1
              have h2' : chAt json_data i ≠ lbrackChar := h2
              have hstep : find_closing_brace_loop json_data (fuel + 1) i (c :: σ) =
                  (if chAt json_data i = c then
                    (if σ.isEmpty then .ok i
                     else find_closing_brace_loop json_data fuel (i + 1) σ)
                   else .error .malformedJson) := by
                simp only [find_closing_brace_loop]
                rw [if_pos hil, if_neg hq, if_neg (not_or.mpr ⟨h1', h2'⟩),
                  if_pos h34]
              rw [hstep] at hok
              by_cases hcc : chAt json_data i = c
              · rw [if_pos hcc] at hok
                cases σ with
                | nil =>
                  simp only [List.isEmpty_nil, if_true] at hok
                  have : i = r := Except.ok.inj hok
                  exact ⟨i, NeutralSeg.refl i, hcc, fun _ => this,
                    fun h => absurd rfl h⟩
                | cons s ss =>
                  simp only [List.isEmpty_cons, if_false] at hok
                  refine ⟨i, NeutralSeg.refl i, hcc, fun h => by simp at h, ?_⟩
                  intro _
                  exact ⟨fuel, by omega, hok⟩
              · rw [if_neg hcc] at hok
                exact absurd hok (by simp)
            · have h3 : chAt json_data i ≠ rbraceChar := fun h => h34 (Or.inl h)
              have h4 : chAt json_data i ≠ rbrackChar := fun h => h34 (Or.inr h)
              have hstep : find_closing_brace_loop json_data (fuel + 1) i (c :: σ) =
                  find_closing_brace_loop json_data fuel (i + 1) (c :: σ) := by
                simp only [find_closing_brace_loop]
                rw [if_pos hil, if_neg hq, if_neg (not_or.mpr ⟨h1, h2⟩),
                  if_neg (not_or.mpr ⟨h3, h4⟩)]
              rw [hstep] at hok
              obtain ⟨m, hn, hc, hleft, hright⟩ :=
                IH fuel (by omega) (i + 1) c σ r hok
              refine ⟨m, NeutralSeg.plain i m hq h1 h3 h2 h4 hn, hc, hleft, ?_⟩
              intro hσ
              obtain ⟨f2, hf2, hok2⟩ := hright hσ
              exact ⟨f2, by omega, hok2⟩
      · exfalso
        simp only [find_closing_brace_loop, if_neg hil] at hok
        exact Except.noConfusion hok

theorem rob_loop_neutral (json_data : List Char) :
    ∀ {i r : Nat}, NeutralSeg json_data i r → 1 ≤ i →
    ∀ σ : List Char, σ ≠ [] →
    rfind_opening_brace_loop json_data r (r - 1) σ =
      rfind_opening_brace_loop json_data i (i - 1) σ := by
  intro i r h
  induction h with
  | refl i => intro _ σ _; rfl
  | plain i r hq hlb hrb hlk hrk hn IH =>
    intro hi σ hσ
    have heq := IH (by omega) σ hσ
    rw [heq]
    simp only [Nat.add_sub_cancel]
    simp only [rfind_opening_brace_loop]
    rw [if_neg hq, if_neg (not_or.mpr ⟨hrb, hrk⟩), if_neg (not_or.mpr ⟨hlb, hlk⟩),
      if_neg (by omega : ¬ i = 0)]
  | obj i m r hlb hrb hn1 hn2 IH1 IH2 =>
    intro hi σ hσ
    have hm : i + 1 ≤ m := neutral_le json_data hn1
    rw [IH2 (by omega) σ hσ]
    simp only [Nat.add_sub_cancel]
    have hstep1 : rfind_opening_brace_loop json_data (m + 1) m σ =
        rfind_opening_brace_loop json_data m (m - 1) (lbraceChar :: σ) := by
      simp only [rfind_opening_brace_loop]
      rw [if_neg (by rw [hrb]; decide), if_pos (Or.inl hrb),
        if_neg (by omega : ¬ m = 0), if_pos hrb]
    rw [hstep1, IH1 (by omega) (lbraceChar :: σ) (by simp)]
    simp only [Nat.add_sub_cancel]
    rcases σ with _ | ⟨s, ss⟩
    · exact absurd rfl hσ
    · simp only [rfind_opening_brace_loop]
      rw [if_neg (by rw [hlb]; decide),
        if_neg (by rw [hlb]; decide : ¬(chAt json_data i = rbraceChar ∨
          chAt json_data i = rbrackChar)),
        if_pos (Or.inl hlb), if_pos hlb]
      rw [if_neg (by simp : ¬((s :: ss : List Char).isEmpty = true)),
        if_neg (by omega : ¬ i = 0)]
  | arr i m r hlk hrk hn1 hn2 IH1 IH2 =>
    intro hi σ hσ
    have hm : i + 1 ≤ m := neutral_le json_data hn1
    rw [IH2 (by omega) σ hσ]
    simp only [Nat.add_sub_cancel]
    have hstep1 : rfind_opening_brace_loop json_data (m + 1) m σ =
        rfind_opening_brace_loop json_data m (m - 1) (lbrackChar :: σ) := by
      simp only [rfind_opening_brace_loop]
      rw [if_neg (by rw [hrk]; decide), if_pos (Or.inr hrk),
        if_neg (by omega : ¬ m = 0), if_neg (by rw [hrk]; decide)]
    rw [hstep1, IH1 (by omega) (lbrackChar :: σ) (by simp)]
    simp only [Nat.add_sub_cancel]
    rcases σ with _ | ⟨s, ss⟩
    · exact absurd rfl hσ
    · simp only [rfind_opening_brace_loop]
      rw [if_neg (by rw [hlk]; decide),
        if_neg (by rw [hlk]; decide : ¬(chAt json_data i = rbraceChar ∨
          chAt json_data i = rbrackChar)),
        if_pos (Or.inr hlk), if_pos hlk]
      rw [if_neg (by simp : ¬((s :: ss : List Char).isEmpty = true)),
        if_neg (by omega : ¬ i = 0)]

/-- C10 (amended): on a buffer with no double-quote character, if an opening
brace that is not the last byte is matched forward to `r`, then
`find_matching_brace` at `r` maps back to the original offset. -/
theorem c10_brace_round_trip (json_data : List Char) (offset_of_brace r : Nat)
    (hqf : quote_free json_data)
    (hopen : chAt json_data offset_of_brace = lbraceChar ∨
      chAt json_data offset_of_brace = lbrackChar)
    (hin : offset_of_brace + 1 < json_data.length)
    (hok : find_matching_brace json_data offset_of_brace = .ok r) :
    find_matching_brace json_data r = .ok offset_of_brace := by
  cases hopen with
  | inl hlb =>
    have hfcb : find_closing_brace_loop json_data
        (json_data.length + 1 - (offset_of_brace + 1)) (offset_of_brace + 1)
        [rbraceChar] = .ok r := by
      have hd : find_matching_brace json_data offset_of_brace =
          find_closing_brace json_data (offset_of_brace + 1) rbraceChar := by
        simp only [find_matching_brace]
        rw [if_pos (Or.inl hlb), if_pos hin, if_pos hlb]
      rw [hd] at hok
      exact hok
    obtain ⟨m, hne, hcm, hmr, _⟩ :=
      fcb_loop_neutral json_data hqf _ _ _ _ _ hfcb
    have hmr' : m = r := hmr rfl
    subst hmr'
    have hro : offset_of_brace + 1 ≤ m := neutral_le json_data hne
    have hBC : rfind_opening_brace_loop json_data (offset_of_brace + 1)
        offset_of_brace [lbraceChar] = .ok offset_of_brace := by
      simp only [rfind_opening_brace_loop]
      rw [if_neg (by rw [hlb]; decide),
        if_neg (by rw [hlb]; decide :
          ¬(chAt json_data offset_of_brace = rbraceChar ∨
            chAt json_data offset_of_brace = rbrackChar)),
        if_pos (Or.inl hlb), if_pos hlb]
      rfl
    have hB := rob_loop_neutral json_data hne (by omega) [lbraceChar] (by simp)
    simp only [Nat.add_sub_cancel] at hB
    simp only [find_matching_brace]
    rw [if_neg (by rw [hcm]; decide :
        ¬(chAt json_data m = lbraceChar ∨ chAt json_data m = lbrackChar)),
      if_pos (Or.inl hcm), if_pos (show m ≠ 0 by omega), if_pos hcm]
    unfold rfind_opening_brace
    have hm1 : m - 1 + 1 = m := by omega
    rw [hm1, hB, hBC]
  | inr hlk =>
    have hfcb : find_closing_brace_loop json_data
        (json_data.length + 1 - (offset_of_brace + 1)) (offset_of_brace + 1)
        [rbrackChar] = .ok r := by
      have hd : find_matching_brace json_data offset_of_brace =
          find_closing_brace json_data (offset_of_brace + 1) rbrackChar := by
        simp only [find_matching_brace]
        rw [if_pos (Or.inr hlk), if_pos hin,
          if_neg (by rw [hlk]; decide : ¬ chAt json_data offset_of_brace = lbraceChar)]
      rw [hd] at hok
      exact hok
    obtain ⟨m, hne, hcm, hmr, _⟩ :=
      fcb_loop_neutral json_data hqf _ _ _ _ _ hfcb
    have hmr' : m = r := hmr rfl
    subst hmr'
    have hro : offset_of_brace + 1 ≤ m := neutral_le json_data hne
    have hBC : rfind_opening_brace_loop json_data (offset_of_brace + 1)
        offset_of_brace [lbrackChar] = .ok offset_of_brace := by
      simp only [rfind_opening_brace_loop]
      rw [if_neg (by rw [hlk]; decide),
        if_neg (by rw [hlk]; decide :
          ¬(chAt json_data offset_of_brace = rbraceChar ∨
            chAt json_data offset_of_brace = rbrackChar)),
        if_pos (Or.inr hlk), if_pos hlk]
      rfl
    have hB := rob_loop_neutral json_data hne (by omega) [lbrackChar] (by simp)
    simp only [Nat.add_sub_cancel] at hB
    simp only [find_matching_brace]
    rw [if_neg (by rw [hcm]; decide :
        ¬(chAt json_data m = lbraceChar ∨ chAt json_data m = lbrackChar)),
      if_pos (Or.inr hcm), if_pos (show m ≠ 0 by omega),
      if_neg (by rw [hcm]; decide : ¬ chAt json_data m = rbraceChar)]
    unfold rfind_opening_brace
    have hm1 : m - 1 + 1 = m := by omega
    rw [hm1, hB, hBC]

/-- C10 witness: in `{[]}` matching offset 0 forward gives 3, and matching 3
maps back to 0. -/
theorem c10_brace_round_trip_witness :
    find_matching_brace brace_pair_example 3 = .ok 0 :=
  c10_brace_round_trip brace_pair_example 0 3 (by decide) (by decide) (by decide)
    (by decide)

/-! ## C4 and C9: the semantic extractor -/

theorem maybe_get_driver_fields (json_data : List Char) (contract_key_offset : Nat)
    (d : Driver)
    (h : maybe_get_driver json_data contract_key_offset = .ok (some d)) :
    parse_driver_position json_data d.car_id_file_offset = .ok d.original_position ∧
    d.position = d.original_position := by
  unfold maybe_get_driver at h
  cases hw : for_sibling_key_values_in_object json_data contract_key_offset
      (⟨none, none, none⟩ : DriverScan) (maybe_get_driver_step json_data) with
  | error e =>
    rw [hw] at h
    exact Except.noConfusion h
  | ok st =>
    rw [hw] at h
    obtain ⟨cid, fn, ln⟩ := st
    cases cid with
    | none => simp at h
    | some cpos =>
      cases fn with
      | none => simp at h
      | some fname =>
        cases ln with
        | none => simp at h
        | some lname =>
          dsimp only at h
          cases hp : parse_driver_position json_data cpos with
          | error e =>
            rw [hp] at h
            exact Except.noConfusion h
          | ok pos =>
            rw [hp] at h
            have hd : some (⟨fname ++ [' '] ++ lname, pos, pos, cpos⟩ : Driver) =
                some d := Except.ok.inj h
            have hd' : (⟨fname ++ [' '] ++ lname, pos, pos, cpos⟩ : Driver) = d :=
              Option.some.inj hd
            subst hd'
            exact ⟨hp, rfl⟩

theorem parse_position_token (json_data : List Char) (off : Nat)
    (p : DriverPosition)
    (h : parse_driver_position json_data off = .ok p) :
    position_token_at json_data off p := by
  unfold parse_driver_position at h
  by_cases hb : off + 2 < json_data.length
  · rw [if_pos hb] at h
    split_ifs at h with h1 h2 h3
    · have hp : DriverPosition.reserve = p := Except.ok.inj h
      subst hp
      refine ⟨?_, ?_⟩
      · intro k hk
        have hk' : k = 0 ∨ k = 1 := by
          have : (get_position_as_json_value DriverPosition.reserve).length = 2 := by
            decide
          omega
        rcases hk' with rfl | rfl
        · rw [show chAt (get_position_as_json_value DriverPosition.reserve) 0 =
            '-' from by decide, Nat.add_zero]
          exact h1.1
        · rw [show chAt (get_position_as_json_value DriverPosition.reserve) 1 =
            '1' from by decide]
          exact h1.2.1
      · rw [show (get_position_as_json_value DriverPosition.reserve).length = 2
          from by decide]
        exact h1.2.2
    · have hp : DriverPosition.car1 = p := Except.ok.inj h
      subst hp
      refine ⟨?_, ?_⟩
      · intro k hk
        have hk' : k = 0 := by
          have : (get_position_as_json_value DriverPosition.car1).length = 1 := by
            decide
          omega
        subst hk'
        rw [show chAt (get_position_as_json_value DriverPosition.car1) 0 =
          '0' from by decide, Nat.add_zero]
        exact h2.1
      · rw [show (get_position_as_json_value DriverPosition.car1).length = 1
          from by decide]
        exact h2.2
    · have hp : DriverPosition.car2 = p := Except.ok.inj h
      subst hp
      refine ⟨?_, ?_⟩
      · intro k hk
        have hk' : k = 0 := by
          have : (get_position_as_json_value DriverPosition.car2).length = 1 := by
            decide
          omega
        subst hk'
        rw [show chAt (get_position_as_json_value DriverPosition.car2) 0 =
          '1' from by decide, Nat.add_zero]
        exact h3.1
      · rw [show (get_position_as_json_value DriverPosition.car2).length = 1
          from by decide]
        exact h3.2
  · rw [if_neg hb] at h
    exact Except.noConfusion h

theorem mapM_contrib_mem (json_data : List Char) :
    ∀ (refs : List Nat) (opts : List (Option Driver)),
    mapM_contrib json_data refs = .ok opts →
    ∀ o ∈ opts, ∃ ref, driver_contribution json_data ref = .ok o := by
  intro refs
  induction refs with
  | nil =>
    intro opts h o ho
    have : ([] : List (Option Driver)) = opts := Except.ok.inj h
    subst this
    simp at ho
  | cons ref rest IH =>
    intro opts h o ho
    unfold mapM_contrib at h
    cases hc : driver_contribution json_data ref with
    | error e =>
      rw [hc] at h
      exact Except.noConfusion h
    | ok o1 =>
      rw [hc] at h
      dsimp only at h
      cases hm : mapM_contrib json_data rest with
      | error e =>
        rw [hm] at h
        exact Except.noConfusion h
      | ok os =>
        rw [hm] at h
        dsimp only at h
        have : o1 :: os = opts := Except.ok.inj h
        subst this
        rcases List.mem_cons.mp ho with rfl | hmem
        · exact ⟨ref, hc⟩
        · exact IH os hm o hmem

theorem driver_contribution_some (json_data : List Char) (ref : Nat) (d : Driver)
    (h : driver_contribution json_data ref = .ok (some d)) :
    ∃ c, find_employeer_team_ref_contract_offset json_data ref = .ok (some c) ∧
      maybe_get_driver json_data c = .ok (some d) := by
  unfold driver_contribution at h
  cases hc : find_employeer_team_ref_contract_offset json_data ref with
  | error e =>
    rw [hc] at h
    exact Except.noConfusion h
  | ok co =>
    rw [hc] at h
    cases co with
    | none =>
      dsimp only at h
      simp at h
    | some c =>
      exact ⟨c, rfl, h⟩

theorem collect_drivers_loop_eq (json_data : List Char) :
    ∀ (refs : List Nat) (acc : List Driver),
    collect_drivers_loop json_data acc refs =
      (match mapM_contrib json_data refs with
       | .error e => .error e
       | .ok opts => .ok (acc ++ opts.reduceOption)) := by
  intro refs
  induction refs with
  | nil =>
    intro acc
    simp [collect_drivers_loop, mapM_contrib, List.reduceOption]
  | cons ref rest IH =>
    intro acc
    unfold collect_drivers_loop mapM_contrib driver_contribution
    cases hc : find_employeer_team_ref_contract_offset json_data ref with
    | error e => rfl
    | ok co =>
      cases co with
      | none =>
        dsimp only
        rw [IH acc]
        cases hm : mapM_contrib json_data rest with
        | error e => rfl
        | ok os =>
          dsimp only
          rw [List.reduceOption_cons_of_none]
      | some coff =>
        dsimp only
        cases hmg : maybe_get_driver json_data coff with
        | error e => rfl
        | ok od =>
          cases od with
          | none =>
            dsimp only
            rw [IH acc]
            cases hm : mapM_contrib json_data rest with
            | error e => rfl
            | ok os =>
              dsimp only
              rw [List.reduceOption_cons_of_none]
          | some drv =>
            dsimp only
            rw [IH (acc ++ [drv])]
            cases hm : mapM_contrib json_data rest with
            | error e => rfl
            | ok os =>
              dsimp only
              simp

theorem gdd_char (json_data : List Char) (ds : List Driver) :
    get_driver_data_from_json json_data = .ok ds ↔
    ∃ tid opts, get_player_team_id json_data = .ok tid ∧
      mapM_contrib json_data (for_each_employeer_team_ref json_data tid) = .ok opts ∧
      opts.reduceOption.length = 3 ∧
      ds = opts.reduceOption.insertionSort driver_le := by
  unfold get_driver_data_from_json
  cases ht : get_player_team_id json_data with
  | error e =>
    constructor
    · intro h
      exact Except.noConfusion h
    · rintro ⟨tid, opts, htid, _⟩
      exact Except.noConfusion htid
  | ok tid =>
    dsimp only
    rw [collect_drivers_loop_eq]
    cases hm : mapM_contrib json_data (for_each_employeer_team_ref json_data tid) with
    | error e =>
      constructor
      · intro h
        exact Except.noConfusion h
      · rintro ⟨tid', opts', htid', hopts', _⟩
        have h1 : tid = tid' := Except.ok.inj htid'
        subst h1
        rw [hm] at hopts'
        exact Except.noConfusion hopts'
    | ok os =>
      dsimp only
      simp only [List.nil_append]
      by_cases hlen : os.reduceOption.length = 3
      · rw [if_neg (by simpa using hlen)]
        constructor
        · intro h
          have hds : os.reduceOption.insertionSort driver_le = ds :=
            Except.ok.inj h
          exact ⟨tid, os, rfl, hm, hlen, hds.symm⟩
        · rintro ⟨tid', opts', htid', hopts', hlen', hds⟩
          have h1 : tid = tid' := Except.ok.inj htid'
          subst h1
          rw [hm] at hopts'
          have h2 : os = opts' := Except.ok.inj hopts'
          subst h2
          rw [hds]
      · rw [if_pos (by simpa using hlen)]
        constructor
        · intro h
          exact Except.noConfusion h
        · rintro ⟨tid', opts', htid', hopts', hlen', hds⟩
          have h1 : tid = tid' := Except.ok.inj htid'
          subst h1
          rw [hm] at hopts'
          have h2 : os = opts' := Except.ok.inj hopts'
          subst h2
          exact absurd hlen' hlen

theorem gdd_sorted (json_data : List Char) (ds : List Driver)
    (h : get_driver_data_from_json json_data = .ok ds) :
    List.Chain' (fun a b => a.car_id_file_offset ≤ b.car_id_file_offset) ds := by
  obtain ⟨tid, opts, _, _, _, hds⟩ := (gdd_char json_data ds).mp h
  subst hds
  exact List.Pairwise.chain' (List.sorted_insertionSort driver_le opts.reduceOption)

theorem gdd_mem (json_data : List Char) (ds : List Driver)
    (h : get_driver_data_from_json json_data = .ok ds) :
    ∀ d ∈ ds, ∃ c, maybe_get_driver json_data c = .ok (some d) := by
  obtain ⟨tid, opts, htid, hopts, hlen, hds⟩ := (gdd_char json_data ds).mp h
  intro d hd
  subst hds
  have hperm := List.perm_insertionSort driver_le opts.reduceOption
  have hd2 : d ∈ opts.reduceOption := hperm.mem_iff.mp hd
  have hd3 : some d ∈ opts := by
    rwa [List.reduceOption_mem_iff] at hd2
  obtain ⟨ref, href⟩ := mapM_contrib_mem json_data _ opts hopts (some d) hd3
  obtain ⟨c, _, hc⟩ := driver_contribution_some json_data ref d href
  exact ⟨c, hc⟩

/-- C4: a successful extraction is exactly a team-id lookup followed by one
contribution per employer-team back-reference occurrence — `none` for
occurrences not enclosed in a `contract` object and for contract objects
without a car identifier, a driver record otherwise — with exactly three
qualifying records, returned sorted by ascending byte offset; and when all
contributions succeed but their count is not three, extraction fails with
`DriverCountMismatch`. -/
theorem c4_semantic_extraction (json_data : List Char) :
    (∀ ds, get_driver_data_from_json json_data = .ok ds ↔
      ∃ tid opts, get_player_team_id json_data = .ok tid ∧
        mapM_contrib json_data (for_each_employeer_team_ref json_data tid) =
          .ok opts ∧
        opts.reduceOption.length = 3 ∧
        ds = opts.reduceOption.insertionSort driver_le) ∧
    (∀ ds, get_driver_data_from_json json_data = .ok ds →
      ds.length = 3 ∧
      List.Chain' (fun a b => a.car_id_file_offset ≤ b.car_id_file_offset) ds) ∧
    (∀ tid opts, get_player_team_id json_data = .ok tid →
      mapM_contrib json_data (for_each_employeer_team_ref json_data tid) =
        .ok opts →
      opts.reduceOption.length ≠ 3 →
      get_driver_data_from_json json_data = .error .driverCountMismatch) := by
  refine ⟨fun ds => gdd_char json_data ds, ?_, ?_⟩
  · intro ds h
    obtain ⟨tid, opts, htid, hopts, hlen, hds⟩ := (gdd_char json_data ds).mp h
    refine ⟨?_, gdd_sorted json_data ds h⟩
    rw [hds]
    have hperm := List.perm_insertionSort driver_le opts.reduceOption
    rw [hperm.length_eq]
    exact hlen
  · intro tid opts htid hopts hlen
    unfold get_driver_data_from_json
    rw [htid]
    dsimp only
    rw [collect_drivers_loop_eq, hopts]
    dsimp only
    simp only [List.nil_append]
    rw [if_pos hlen]

/-- C4 witness: on the synthetic save the five occurrences contribute
`[some d1, some d2, none, none, some d3]` (staff contract and non-contract
reference contribute nothing), and extraction returns the three drivers
sorted by offset. -/
theorem c4_semantic_extraction_witness :
    get_driver_data_from_json example_json =
      .ok [⟨"Al Ba".toList, .car1, .car1, 85⟩, ⟨"Cy Do".toList, .car2, .car2, 179⟩,
        ⟨"Ev Fo".toList, .reserve, .reserve, 397⟩] :=
  ((c4_semantic_extraction example_json).1 _).mpr
    ⟨"1287".toList,
      [some ⟨"Al Ba".toList, .car1, .car1, 85⟩, some ⟨"Cy Do".toList, .car2, .car2, 179⟩,
        none, none, some ⟨"Ev Fo".toList, .reserve, .reserve, 397⟩],
      by decide, by decide, by decide, by decide⟩

/-- C9: after a successful extraction every stored driver record decodes, at
its `car_id_file_offset`, exactly to its `original_position` (the token text
followed by `,` or `}`), `position` starts equal to `original_position`, the
offsets are ascending; and a position edit never touches the other fields. -/
theorem c9_driver_record_invariant (json_data : List Char) :
    (∀ ds, get_driver_data_from_json json_data = .ok ds →
      (∀ d ∈ ds, d.position = d.original_position ∧
        parse_driver_position json_data d.car_id_file_offset =
          .ok d.original_position ∧
        position_token_at json_data d.car_id_file_offset d.original_position) ∧
      List.Chain' (fun a b => a.car_id_file_offset ≤ b.car_id_file_offset) ds) ∧
    (∀ (d : Driver) (p : DriverPosition),
      (set_position d p).original_position = d.original_position ∧
      (set_position d p).car_id_file_offset = d.car_id_file_offset ∧
      (set_position d p).name = d.name ∧
      (set_position d p).position = p) := by
  constructor
  · intro ds h
    refine ⟨?_, gdd_sorted json_data ds h⟩
    intro d hd
    obtain ⟨c, hc⟩ := gdd_mem json_data ds h d hd
    obtain ⟨hparse, hpos⟩ := maybe_get_driver_fields json_data c d hc
    exact ⟨hpos, hparse, parse_position_token json_data d.car_id_file_offset
      d.original_position hparse⟩
  · intro d p
    exact ⟨rfl, rfl, rfl, rfl⟩

/-- C9 witness: the invariant instantiated on the synthetic save's three
extracted records. -/
theorem c9_driver_record_invariant_witness :
    (∀ d ∈ [(⟨"Al Ba".toList, .car1, .car1, 85⟩ : Driver),
        ⟨"Cy Do".toList, .car2, .car2, 179⟩,
        ⟨"Ev Fo".toList, .reserve, .reserve, 397⟩],
      d.position = d.original_position ∧
      parse_driver_position example_json d.car_id_file_offset =
        .ok d.original_position ∧
      position_token_at example_json d.car_id_file_offset d.original_position) ∧
    List.Chain' (fun a b => a.car_id_file_offset ≤ b.car_id_file_offset)
      [(⟨"Al Ba".toList, .car1, .car1, 85⟩ : Driver),
        ⟨"Cy Do".toList, .car2, .car2, 179⟩,
        ⟨"Ev Fo".toList, .reserve, .reserve, 397⟩] :=
  (c9_driver_record_invariant example_json).1 _ (by decide)
